import Mathlib

/-!
Verification development for the fmld dictionary converter.

The Rust sources are shallowly embedded: strings are modelled as `List Char`
(one element per Unicode scalar value, as produced by Rust `str::chars`),
fallible functions return `Except`, and the SQLite database is modelled as a
record of row lists in rowid order (a fresh rowid is the current length of the
table plus one, matching INTEGER PRIMARY KEY allocation for these workloads).
All definitions are executable and recursion is structural, so closed facts
evaluate by `decide` or `rfl`.
-/

namespace Fmld

/-- UTF-8 byte length of one scalar value, as used by Rust `str::len`. -/
def charUtf8Size (c : Char) : Nat :=
  if c.toNat < 0x80 then 1
  else if c.toNat < 0x800 then 2
  else if c.toNat < 0x10000 then 3
  else 4

/-- UTF-8 byte length of a string modelled as a scalar-value list. -/
def utf8Len (s : List Char) : Nat :=
  s.foldr (fun c n => charUtf8Size c + n) 0

/-- Rust `char::is_whitespace` (the Unicode White_Space property). -/
def rustIsWhitespace (c : Char) : Bool :=
  (0x09 ≤ c.toNat && c.toNat ≤ 0x0D) || c.toNat = 0x20 || c.toNat = 0x85 ||
  c.toNat = 0xA0 || c.toNat = 0x1680 ||
  (0x2000 ≤ c.toNat && c.toNat ≤ 0x200A) ||
  c.toNat = 0x2028 || c.toNat = 0x2029 || c.toNat = 0x202F ||
  c.toNat = 0x205F || c.toNat = 0x3000

/-- Rust `str::trim`: strip leading and trailing Unicode whitespace. -/
def rustTrim (s : List Char) : List Char :=
  ((s.dropWhile rustIsWhitespace).reverse.dropWhile rustIsWhitespace).reverse

/-- Rust `char::to_digit(10)`. -/
def toDigit10 (c : Char) : Option Nat :=
  if '0' ≤ c && c ≤ '9' then some (c.toNat - '0'.toNat) else none

/-- Rust `str::to_lowercase`, restricted to the alphabet the converter
processes (ASCII plus the pinyin letters `ê` and `ü`); on these characters the
Unicode lowercase map is one scalar to one scalar of the same UTF-8 width. -/
def rustToLowerChar (c : Char) : Char :=
  if 'A' ≤ c && c ≤ 'Z' then Char.ofNat (c.toNat + 32)
  else if c = 'Ê' then 'ê'
  else if c = 'Ü' then 'ü'
  else c

/-- Rust `str::replace` with a one-character needle: every occurrence of the
needle is replaced by the replacement string. -/
def replaceChar (s : List Char) (needle : Char) (rep : List Char) : List Char :=
  s.flatMap (fun c => if c = needle then rep else [c])

/-- Is `t` a leading segment of `s`? (helper for substring search). -/
def leadsList : List Char → List Char → Bool
  | [], _ => true
  | _ :: _, [] => false
  | a :: as, b :: bs => a = b && leadsList as bs

/-- Scalar-value position of the first occurrence of `t` inside `s`; mirrors
Rust `str::find` with a needle whose lowercase image is width-preserving, so
byte positions and scalar positions coincide between the lowercased string and
the original. -/
def findInfixPos (t : List Char) : List Char → Option Nat
  | [] => if t.isEmpty then some 0 else none
  | c :: cs =>
    if leadsList t (c :: cs) then some 0
    else (findInfixPos t cs).map (· + 1)

/-- Rust `str::contains` with a string pattern. -/
def containsInfix (t s : List Char) : Bool :=
  (findInfixPos t s).isSome

/-- Rust `str::split_inclusive`, accumulator form. -/
def splitInclusiveGo (p : Char → Bool) : List Char → List Char → List (List Char)
  | [], acc => if acc.isEmpty then [] else [acc.reverse]
  | c :: cs, acc =>
    if p c then (acc.reverse ++ [c]) :: splitInclusiveGo p cs []
    else splitInclusiveGo p cs (c :: acc)

/-- Rust `str::split_inclusive`: split after every matching character, keeping
the delimiter at the end of each fragment; no empty trailing fragment. -/
def splitInclusive (p : Char → Bool) (s : List Char) : List (List Char) :=
  splitInclusiveGo p s []

/-- The split pattern of `pinyin_mark_from_num`: `(c > '0') && (c < '6')`. -/
def pinyinSplitPat (c : Char) : Bool :=
  '0' < c && c < '6'

/-- The tone-mark lookup table `tone_mark_char` from `src/pinyin.rs`: for each
markable character, the five rendered variants for tones 1 to 5 (some entries
are combining sequences). -/
def tone_mark_char (ch : Char) (tone : Nat) : Option (List Char) :=
  let row : Option (List String) :=
    if ch = 'a' then some ["ā", "á", "ǎ", "à", "a"]
    else if ch = 'A' then some ["Ā", "Á", "Ǎ", "À", "A"]
    else if ch = 'e' then some ["ē", "é", "ě", "è", "e"]
    else if ch = 'E' then some ["Ē", "É", "Ě", "È", "E"]
    else if ch = 'ê' then some ["ê̄", "ế", "ê̌", "ề", "ê"]
    else if ch = 'Ê' then some ["Ê̄", "Ế", "Ê̌", "Ề", "Ê"]
    else if ch = 'i' then some ["ī", "í", "ǐ", "ì", "i"]
    else if ch = 'I' then some ["Ī", "Í", "Ǐ", "Ì", "I"]
    else if ch = 'o' then some ["ō", "ó", "ǒ", "ò", "o"]
    else if ch = 'O' then some ["Ō", "Ó", "Ǒ", "Ò", "O"]
    else if ch = 'u' then some ["ū", "ú", "ǔ", "ù", "u"]
    else if ch = 'U' then some ["Ū", "Ú", "Ǔ", "Ù", "U"]
    else if ch = 'ü' then some ["ǖ", "ǘ", "ǚ", "ǜ", "ü"]
    else if ch = 'Ü' then some ["Ǖ", "Ǘ", "Ǚ", "Ǜ", "Ü"]
    else if ch = 'm' then some ["m̄", "ḿ", "m̌", "m̀", "m"]
    else if ch = 'M' then some ["M̄", "Ḿ", "M̌", "M̀", "M"]
    else if ch = 'n' then some ["n̄", "ń", "ň", "ǹ", "n"]
    else if ch = 'N' then some ["N̄", "Ń", "Ň", "Ǹ", "N"]
    else none
  row.map (fun r => ((r.getD (tone - 1) "").toList))

/-- The seven vowels collected by `pinyin_syllable_mark_from_num`. -/
def isPinyinVowel (c : Char) : Bool :=
  c = 'a' || c = 'e' || c = 'ê' || c = 'i' || c = 'o' || c = 'u' || c = 'ü'

/-- `pinyin_syllable_mark_from_num` from `src/pinyin.rs`: normalize `v`/`V` to
`ü`/`Ü`; if the final character is not an ASCII digit return as is, otherwise
strip it; for tones 1 to 4 pick the mark target (first of `a`, `e`, `ê`, `ou`
found inside the collected vowel subsequence, else the last vowel, else `n`,
else `m`) and replace every occurrence of the targeted character by its marked
form. -/
def pinyin_syllable_mark_from_num (s : List Char) : List Char :=
  let pinyin := replaceChar (replaceChar s 'v' "ü".toList) 'V' "Ü".toList
  match pinyin.getLast? with
  | none => []
  | some last =>
    match toDigit10 last with
    | none => pinyin
    | some tone =>
      let body := pinyin.dropLast
      let lower := body.map rustToLowerChar
      if 1 ≤ tone && tone ≤ 4 then
        let vowels := lower.filter isPinyinVowel
        let target : Option (List Char) :=
          if vowels.isEmpty then
            if lower.contains 'n' then some ['n']
            else if lower.contains 'm' then some ['m']
            else none
          else
            if containsInfix ['a'] vowels then some ['a']
            else if containsInfix ['e'] vowels then some ['e']
            else if containsInfix ['ê'] vowels then some ['ê']
            else if containsInfix ['o', 'u'] vowels then some ['o', 'u']
            else vowels.getLast?.map (fun c => [c])
        match target with
        | none => body
        | some tgt =>
          match findInfixPos tgt lower with
          | none => body
          | some idx =>
            match body.get? idx with
            | none => body
            | some chToMark =>
              match tone_mark_char chToMark tone with
              | none => body
              | some marked => replaceChar body chToMark marked
      else body

/-- The apostrophe character inserted between syllables. -/
def apostropheChar : Char := Char.ofNat 39

/-- Does the lowercased fragment start with one of `a`, `e`, `ê`, `o`? -/
def startsWithApostropheChar (frag : List Char) : Bool :=
  match (frag.map rustToLowerChar).head? with
  | some c => c = 'a' || c = 'e' || c = 'ê' || c = 'o'
  | none => false

/-- `pinyin_mark_from_num` from `src/pinyin.rs`: split at tone digits keeping
the digit, insert an apostrophe before a non-first fragment that starts (case
insensitively) with `a`, `e`, `ê` or `o`, mark each fragment, concatenate. -/
def pinyin_mark_from_num (s : List Char) : List Char :=
  (splitInclusive pinyinSplitPat s |>.foldl
    (fun acc frag =>
      let acc :=
        if !acc.isEmpty && startsWithApostropheChar frag then
          acc ++ [[apostropheChar]]
        else acc
      acc ++ [pinyin_syllable_mark_from_num frag])
    []).flatten

/-- The tag registry `tag_to_txt_ascii_common` of `src/config.rs` (the copy in
the library crate that `txt_to_db.rs` links against): code to
(name, category, sort rank). -/
def tag_to_txt_ascii_common (ascii_tag : Char) : Option (String × String × Nat) :=
  if ascii_tag = 'T' then some ("taiwan-only", "country", 10)
  else if ascii_tag = 't' then some ("taiwan-chiefly", "country", 10)
  else if ascii_tag = 'C' then some ("china-only", "country", 10)
  else if ascii_tag = 'c' then some ("china-chiefly", "country", 10)
  else if ascii_tag = '&' then some ("bound-form", "bound-form", 8)
  else if ascii_tag = 'A' then some ("ai-only", "ai", 6)
  else if ascii_tag = 'a' then some ("ai-human", "ai", 6)
  else if ascii_tag = 'w' then some ("wiktionary", "source", 3)
  else if ascii_tag = 'm' then some ("mdbg", "source", 2)
  else if ascii_tag = '+' then some ("high-relevance", "relevance", 1)
  else if ascii_tag = '-' then some ("low-relevance", "relevance", 1)
  else if ascii_tag = 'x' then some ("irrelevant", "relevance", 1)
  else if ascii_tag = 'X' then some ("deleted", "relevance", 1)
  else none

/-- The tag registry `tag_to_txt_ascii_common` of `rust/src/config.rs` (the
second copy in the repository), which additionally lists `i` and names the `x`
tag `lowest-relevance`. -/
def tag_to_txt_ascii_common_rust (ascii_tag : Char) : Option (String × String × Nat) :=
  if ascii_tag = 'T' then some ("taiwan-only", "country", 10)
  else if ascii_tag = 't' then some ("taiwan-chiefly", "country", 10)
  else if ascii_tag = 'C' then some ("china-only", "country", 10)
  else if ascii_tag = 'c' then some ("china-chiefly", "country", 10)
  else if ascii_tag = '&' then some ("bound-form", "bound-form", 8)
  else if ascii_tag = 'i' then some ("irregular", "checks", 7)
  else if ascii_tag = 'A' then some ("ai-only", "ai", 6)
  else if ascii_tag = 'a' then some ("ai-human", "ai", 6)
  else if ascii_tag = 'w' then some ("wiktionary", "source", 3)
  else if ascii_tag = 'm' then some ("mdbg", "source", 2)
  else if ascii_tag = '+' then some ("high-relevance", "relevance", 1)
  else if ascii_tag = '-' then some ("low-relevance", "relevance", 1)
  else if ascii_tag = 'x' then some ("lowest-relevance", "relevance", 1)
  else if ascii_tag = 'X' then some ("deleted", "relevance", 1)
  else none

/-- The codes listed in the `rust/src/config.rs` registry (the spec table). -/
def rustTagKeys : List Char :=
  ['T', 't', 'C', 'c', '&', 'i', 'A', 'a', 'w', 'm', '+', '-', 'x', 'X']

/-- `get_ref_type` of `src/config.rs`: reference-type code to
(full name, symmetric flag); identical in both copies of the file. -/
def get_ref_type (ref_type_char : Char) : Option (String × Bool) :=
  if ref_type_char = '=' then some ("synonym-equal", true)
  else if ref_type_char = '~' then some ("synonym-similar", true)
  else if ref_type_char = '!' then some ("antonym", true)
  else if ref_type_char = '?' then some ("could-be-confused-with", true)
  else if ref_type_char = '<' then some ("part-of", false)
  else if ref_type_char = '>' then some ("contains", false)
  else if ref_type_char = 'V' then some ("word-variant-of", false)
  else if ref_type_char = 'v' then some ("character-variant-of", false)
  else if ref_type_char = 'M' then some ("used-with-measure-word", false)
  else if ref_type_char = '&' then some ("collocation", false)
  else if ref_type_char = 'G' then some ("word-group", false)
  else none

/-- Drop the first `n` UTF-8 bytes of a string; models a Rust byte-slice
`&line[n..]`. The lexer only slices inside a run of one-byte whitespace, so
the cut always falls on a character boundary (off-boundary slicing would
panic in Rust and cannot be reached from the call site). -/
def byteDrop : Nat → List Char → List Char
  | _, [] => []
  | 0, s => s
  | n + 1, c :: cs => byteDrop (n + 1 - charUtf8Size c) cs

/-- A logical line as produced by the lexer (`LineInfo` in
`src/txt_parser.rs`): starting physical line, physical line count,
indentation in bytes, folded text. -/
structure LineInfo where
  source_line_start : Nat
  source_line_num : Nat
  indentation : Nat
  line : List Char
deriving DecidableEq, Repr

/-- The streaming lexer `ParserIterator::next` of `src/txt_parser.rs`,
unrolled over the whole input: `cnt` is the number of physical lines already
consumed and `cur` the buffered logical line. A physical line whose text
after trimming leading whitespace is shorter than two bytes emits the
buffered line if one exists and otherwise makes `next` return `None`, which
ends the whole iteration and discards the rest of the input. A line indented
at least two bytes beyond the buffered line is folded into it; any other
line emits the buffered line and starts a new one. -/
def lexGo : List (List Char) → Nat → Option LineInfo → List LineInfo
  | [], _, cur =>
    match cur with
    | some c => [c]
    | none => []
  | l :: ls, cnt, cur =>
    let content := l.dropWhile rustIsWhitespace
    if utf8Len content < 2 then
      match cur with
      | some c => c :: lexGo ls (cnt + 1) none
      | none => []
    else
      let ind := utf8Len l - utf8Len content
      match cur with
      | some c =>
        if ind > c.indentation + 1 then
          lexGo ls (cnt + 1) (some { c with
            line := c.line ++ '\n' :: byteDrop (c.indentation + 2) l,
            source_line_num := c.source_line_num + 1 })
        else
          c :: lexGo ls (cnt + 1) (some ⟨cnt + 1, 1, ind, content⟩)
      | none => lexGo ls (cnt + 1) (some ⟨cnt + 1, 1, ind, content⟩)

/-- Lex a list of physical lines into logical lines. -/
def lexPhysicalLines (ls : List (List Char)) : List LineInfo :=
  lexGo ls 0 none

/-- One parsed tag: a one-character ASCII code or a `#`-prefixed full tag. -/
inductive Tag where
  | ascii (c : Char)
  | full (t : List Char)
deriving DecidableEq, Repr

/-- `Tags` of `src/txt_parser.rs`. -/
abbrev Tags := List Tag

/-- `Word` of `src/txt_parser.rs`: traditional form and optional simplified
form. -/
structure Word where
  trad : List Char
  simp : Option (List Char)
deriving DecidableEq, Repr

/-- `WordTagGroup` of `src/txt_parser.rs`. -/
structure WordTagGroup where
  tags : Tags
  words : List Word
deriving DecidableEq, Repr

/-- `PinyinTagGroup` of `src/txt_parser.rs`. -/
structure PinyinTagGroup where
  tags : Tags
  pinyins : List (List Char)
deriving DecidableEq, Repr

/-- `Reference` of `src/txt_parser.rs`: a target word and an optional
definition anchor. -/
structure Reference where
  target_word : Word
  target_id : Option (Char × Nat)
deriving DecidableEq, Repr

/-- `ReferenceTagGroup` of `src/txt_parser.rs`. -/
structure ReferenceTagGroup where
  ref_type : Char
  tags : Tags
  references : List Reference
deriving DecidableEq, Repr

/-- `DefinitionTag` of `src/txt_parser.rs`. -/
structure DefinitionTag where
  tags : Tags
  id : Nat
  definition : List Char
deriving DecidableEq, Repr

/-- `Note` of `src/txt_parser.rs`: note id, link flag, note text. -/
structure Note where
  id : Nat
  is_link : Bool
  note : List Char
deriving DecidableEq, Repr

/-- `DictLine` of `src/txt_parser.rs` (the `Class` variant is spelled `cls`
because `class` is reserved in Lean). -/
inductive DictLine where
  | word (groups : List WordTagGroup)
  | pinyin (groups : List PinyinTagGroup)
  | cls (name : List Char)
  | definition (d : DefinitionTag)
  | crossReference (groups : List ReferenceTagGroup)
  | note (n : Note)
  | comment (text : List Char)
deriving DecidableEq, Repr

/-- A nom-style parser: input to optional (remainder, value). -/
abbrev P (α : Type) := List Char → Option (List Char × α)

/-- The whitespace recognized by nom `multispace0`. -/
def isNomMs (c : Char) : Bool :=
  c = ' ' || c = '\t' || c = '\r' || c = '\n'

/-- nom `many0` with an explicit fuel bound; mirrors nom, which errors when
the inner parser succeeds without consuming input. -/
def many0Go {α : Type} (p : P α) : Nat → List Char → Option (List Char × List α)
  | 0, s => some (s, [])
  | fuel + 1, s =>
    match p s with
    | none => some (s, [])
    | some (s1, a) =>
      if s1.length < s.length then
        match many0Go p fuel s1 with
        | some (s2, as) => some (s2, a :: as)
        | none => none
      else none

/-- nom `many0`. -/
def many0 {α : Type} (p : P α) : P (List α) := fun s =>
  many0Go p (s.length + 1) s

/-- nom `many1`. -/
def many1 {α : Type} (p : P α) : P (List α) := fun s =>
  match p s with
  | none => none
  | some (s1, a) =>
    match many0 p s1 with
    | some (s2, as) => some (s2, a :: as)
    | none => none

/-- nom `separated_list1` tail loop: repeatedly a `;` separator then an
element, stopping (and rewinding the separator) when either fails. -/
def sepByGo {α : Type} (sepc : Char) (p : P α) :
    Nat → List Char → Option (List Char × List α)
  | 0, s => some (s, [])
  | fuel + 1, s =>
    match s with
    | c :: s1 =>
      if c = sepc then
        match p s1 with
        | none => some (s, [])
        | some (s2, a) =>
          if s2.length < s.length then
            match sepByGo sepc p fuel s2 with
            | some (s3, as) => some (s3, a :: as)
            | none => none
          else none
      else some (s, [])
    | [] => some (s, [])

/-- nom `separated_list1` with a single-character separator. -/
def separated_list1 {α : Type} (sepc : Char) (p : P α) : P (List α) := fun s =>
  match p s with
  | none => none
  | some (s1, a) =>
    match sepByGo sepc p (s1.length + 1) s1 with
    | some (s2, as) => some (s2, a :: as)
    | none => none

/-- One ASCII tag: `delimited(multispace0, none_of("#|"), multispace0)`. -/
def parse_ascii_tag : P Char := fun s =>
  match s.dropWhile isNomMs with
  | [] => none
  | c :: cs =>
    if c = '#' || c = '|' then none
    else some (cs.dropWhile isNomMs, c)

/-- Is this a full-tag character (`is_ascii_alphanumeric` or `-`)? -/
def isFullTagChar (c : Char) : Bool :=
  ('a' ≤ c && c ≤ 'z') || ('A' ≤ c && c ≤ 'Z') || ('0' ≤ c && c ≤ '9') || c = '-'

/-- One full tag: `#` followed by one or more tag characters, with surrounding
whitespace. -/
def parse_full_tag : P (List Char) := fun s =>
  match s.dropWhile isNomMs with
  | '#' :: rest =>
    let t := rest.takeWhile isFullTagChar
    if t.isEmpty then none
    else some ((rest.drop t.length).dropWhile isNomMs, t)
  | _ => none

/-- `parse_tags` of `src/txt_parser.rs`: `|`, ASCII tags, full tags, `|`, all
with permissive whitespace; full tags are trimmed. -/
def parse_tags : P Tags := fun s =>
  match s.dropWhile isNomMs with
  | '|' :: s1 =>
    match many0 parse_ascii_tag (s1.dropWhile isNomMs) with
    | none => none
    | some (s2, asciis) =>
      match many0 parse_full_tag s2 with
      | none => none
      | some (s3, fulls) =>
        match s3.dropWhile isNomMs with
        | '|' :: s4 =>
          some (s4.dropWhile isNomMs,
            asciis.map Tag.ascii ++ fulls.map (fun t => Tag.full (rustTrim t)))
        | _ => none
  | _ => none

/-- Characters excluded from a traditional-form word. -/
def isWordStopChar (c : Char) : Bool :=
  c = '|' || c = '#' || c = ';' || c = '/' || c = '／'

/-- Characters excluded from a simplified-form word. -/
def isSimpStopChar (c : Char) : Bool :=
  c = '#' || c = '|' || c = ';'

/-- `parse_word` of `src/txt_parser.rs`: a traditional form, optionally a `/`
or `／` and a simplified form; both trimmed. A separator not followed by a
well-formed simplified form is rewound (nom `opt`). -/
def parse_word : P Word := fun s =>
  let s1 := s.dropWhile isNomMs
  let t := s1.takeWhile (fun c => !isWordStopChar c)
  if t.isEmpty then none
  else
    let s2 := (s1.drop t.length).dropWhile isNomMs
    let noSimp : Option (List Char × Word) := some (s2, ⟨rustTrim t, none⟩)
    match s2 with
    | c :: rest =>
      if c = '/' || c = '／' then
        let rest1 := rest.dropWhile isNomMs
        let t2 := rest1.takeWhile (fun c => !isSimpStopChar c)
        if t2.isEmpty then noSimp
        else some ((rest1.drop t2.length).dropWhile isNomMs,
          ⟨rustTrim t, some (rustTrim t2)⟩)
      else noSimp
    | [] => noSimp

/-- `parse_word_tag_group` of `src/txt_parser.rs`. -/
def parse_word_tag_group : P WordTagGroup := fun s =>
  match parse_tags s with
  | none => none
  | some (s1, tags) =>
    match separated_list1 ';' parse_word s1 with
    | none => none
    | some (s2, words) => some (s2, ⟨tags, words⟩)

/-- Run a parser in `all_consuming` mode. -/
def runAll {α : Type} (p : P α) (s : List Char) : Option α :=
  match p s with
  | some ([], a) => some a
  | _ => none

/-- `parse_word_line` of `src/txt_parser.rs`. -/
def parse_word_line : P (List WordTagGroup) :=
  many1 parse_word_tag_group

/-- A pinyin character: ASCII alphanumeric or one of `ê. -,`. -/
def isPinyinTokenChar (c : Char) : Bool :=
  ('a' ≤ c && c ≤ 'z') || ('A' ≤ c && c ≤ 'Z') || ('0' ≤ c && c ≤ '9') ||
  c = 'ê' || c = '.' || c = ' ' || c = '-' || c = ','

/-- One pinyin token with surrounding whitespace. -/
def parse_pinyin_token : P (List Char) := fun s =>
  let s1 := s.dropWhile isNomMs
  let t := s1.takeWhile isPinyinTokenChar
  if t.isEmpty then none
  else some ((s1.drop t.length).dropWhile isNomMs, t)

/-- `parse_pinyin_tag_group` of `src/txt_parser.rs`: tags then a `;`-separated
pinyin list, each token trimmed. -/
def parse_pinyin_tag_group : P PinyinTagGroup := fun s =>
  match parse_tags s with
  | none => none
  | some (s1, tags) =>
    match separated_list1 ';' parse_pinyin_token s1 with
    | none => none
    | some (s2, pinyins) => some (s2, ⟨tags, pinyins.map rustTrim⟩)

/-- `parse_pinyin_line` of `src/txt_parser.rs`. -/
def parse_pinyin_line : P (List PinyinTagGroup) :=
  many1 parse_pinyin_tag_group

/-- nom `u32`: one or more ASCII digits, failing on u32 overflow. -/
def parse_u32 : P Nat := fun s =>
  let ds := s.takeWhile (fun c => '0' ≤ c && c ≤ '9')
  if ds.isEmpty then none
  else
    let v := ds.foldl (fun acc c => acc * 10 + (c.toNat - '0'.toNat)) 0
    if v ≤ 4294967295 then some (s.drop ds.length, v) else none

/-- `parse_definition_line` of `src/txt_parser.rs`: id, tags, rest. -/
def parse_definition_line : P DefinitionTag := fun s =>
  match parse_u32 s with
  | none => none
  | some (s1, id) =>
    match parse_tags s1 with
    | none => none
    | some (s2, tags) => some ([], ⟨tags, id, s2⟩)

/-- `parse_class_line` of `src/txt_parser.rs`: leading whitespace, rest. -/
def parse_class_line : P (List Char) := fun s =>
  some ([], s.dropWhile isNomMs)

/-- `parse_comment_line` of `src/txt_parser.rs`: leading whitespace, rest. -/
def parse_comment_line : P (List Char) := fun s =>
  some ([], s.dropWhile isNomMs)

/-- `parse_note_line` of `src/txt_parser.rs`: optional `->`, id, whitespace,
rest. -/
def parse_note_line : P Note := fun s =>
  let (s1, isLink) :=
    if leadsList "->".toList s then (s.drop 2, true) else (s, false)
  match parse_u32 s1 with
  | none => none
  | some (s2, id) => some ([], ⟨id, isLink, s2.dropWhile isNomMs⟩)

/-- `parse_reference` of `src/txt_parser.rs`: a word, optionally `#D` and an
integer anchor (rewound when incomplete). -/
def parse_reference : P Reference := fun s =>
  match parse_word s with
  | none => none
  | some (s1, w) =>
    let noAnchor : Option (List Char × Reference) := some (s1, ⟨w, none⟩)
    if leadsList "#D".toList s1 then
      match parse_u32 (s1.drop 2) with
      | none => noAnchor
      | some (s2, n) => some (s2.dropWhile isNomMs, ⟨w, some ('D', n)⟩)
    else noAnchor

/-- `parse_reference_tag_group` of `src/txt_parser.rs`: any character as the
reference type, tags, then a `;`-separated reference list. -/
def parse_reference_tag_group : P ReferenceTagGroup := fun s =>
  match s with
  | [] => none
  | rt :: s1 =>
    match parse_tags s1 with
    | none => none
    | some (s2, tags) =>
      match separated_list1 ';' parse_reference s2 with
      | none => none
      | some (s3, refs) => some (s3, ⟨rt, tags, refs⟩)

/-- `parse_reference_line` of `src/txt_parser.rs`. -/
def parse_reference_line : P (List ReferenceTagGroup) :=
  many1 parse_reference_tag_group

/-- `parse_line` of `src/txt_parser.rs`: dispatch on the first character and
require the chosen parser to consume the whole line. -/
def parse_line (line : List Char) : Except Unit DictLine :=
  let res : Option DictLine :=
    match line with
    | [] => none
    | c :: rest =>
      if c = 'W' then (runAll parse_word_line rest).map DictLine.word
      else if c = 'P' then (runAll parse_pinyin_line rest).map DictLine.pinyin
      else if c = 'C' then (runAll parse_class_line rest).map DictLine.cls
      else if c = 'D' then (runAll parse_definition_line rest).map DictLine.definition
      else if c = 'X' then (runAll parse_reference_line rest).map DictLine.crossReference
      else if c = 'N' then (runAll parse_note_line rest).map DictLine.note
      else if c = '#' then (runAll parse_comment_line rest).map DictLine.comment
      else none
  match res with
  | some d => Except.ok d
  | none => Except.error ()

/-- Decimal rendering of a natural number (fuel-based, structural). -/
def natDigitsGo : Nat → Nat → List Char → List Char
  | 0, _, acc => acc
  | fuel + 1, n, acc =>
    let d := Char.ofNat (48 + n % 10)
    if n < 10 then d :: acc else natDigitsGo fuel (n / 10) (d :: acc)

/-- Decimal rendering of a natural number, as Rust integer formatting. -/
def natToChars (n : Nat) : List Char :=
  natDigitsGo (n + 1) n []

/-- Row of `dict_shared`: rank, optional relative rank, optional note and
comment references. `rank_relative` has no default in the schema, so an
`INSERT` that omits it stores NULL. -/
structure SharedRow where
  id : Nat
  rank : Nat
  rank_relative : Option Nat
  note_id : Option Nat
  comment_id : Option Nat
deriving DecidableEq, Repr

/-- Row of `dict_word`. -/
structure WordRow where
  id : Nat
  shared_id : Nat
  trad : List Char
  simp : List Char
deriving DecidableEq, Repr

/-- Row of `dict_pron`. -/
structure PronRow where
  id : Nat
  pinyin_num : List Char
  pinyin_mark : List Char
deriving DecidableEq, Repr

/-- Row of `dict_shared_pron`. -/
structure SharedPronRow where
  id : Nat
  shared_id : Nat
  pron_id : Nat
deriving DecidableEq, Repr

/-- Row of `dict_pron_definition`. -/
structure PronDefRow where
  id : Nat
  shared_pron_id : Nat
  definition_id : Nat
deriving DecidableEq, Repr

/-- Row of `dict_class`. -/
structure ClassRow where
  id : Nat
  name : List Char
deriving DecidableEq, Repr

/-- Row of `dict_definition`. -/
structure DefinitionRow where
  id : Nat
  shared_id : Nat
  word_id : Nat
  definition : List Char
  ext_def_id : Nat
  class_id : Nat
deriving DecidableEq, Repr

/-- Row of `dict_tag`. -/
structure TagRow where
  id : Nat
  tag : List Char
  ty : List Char
  ascii_symbol : Option (List Char)
deriving DecidableEq, Repr

/-- Row of `dict_shared_tag` (primary key is the pair). -/
structure SharedTagRow where
  for_shared_id : Nat
  tag_id : Nat
deriving DecidableEq, Repr

/-- Row of `dict_note`. -/
structure NoteRow where
  id : Nat
  note : List Char
  ext_note_id : Nat
deriving DecidableEq, Repr

/-- Row of `dict_comment`. -/
structure CommentRow where
  id : Nat
  comment : List Char
deriving DecidableEq, Repr

/-- Row of `dict_ref_type`. -/
structure RefTypeRow where
  id : Nat
  ty : List Char
  ascii_symbol : List Char
  is_symmetric : Bool
deriving DecidableEq, Repr

/-- Row of `dict_reference`. -/
structure ReferenceRow where
  id : Nat
  shared_id : Nat
  ref_type_id : Nat
  word_id_src : Nat
  definition_id_src : Option Nat
  word_id_dst : Nat
  definition_id_dst : Option Nat
deriving DecidableEq, Repr

/-- The whole database, each table as its row list in rowid order; a fresh
rowid is the table length plus one (rows are never deleted). -/
structure Db where
  shared : List SharedRow
  words : List WordRow
  prons : List PronRow
  sharedProns : List SharedPronRow
  pronDefs : List PronDefRow
  classes : List ClassRow
  defs : List DefinitionRow
  tags : List TagRow
  sharedTags : List SharedTagRow
  notes : List NoteRow
  comments : List CommentRow
  refTypes : List RefTypeRow
  refs : List ReferenceRow
deriving DecidableEq, Repr

/-- The freshly created database (schema only). -/
def Db.empty : Db :=
  ⟨[], [], [], [], [], [], [], [], [], [], [], [], []⟩

/-- `DictNode` of `src/txt_to_db.rs`: a typed handle pushed on the parent
stack (the `Class` variant is spelled `cls`). -/
inductive DictNode where
  | word (shared_id word_id : Nat)
  | pinyin (shared_id shared_pron_id : Nat)
  | cls (class_id : Nat)
  | definition (shared_id word_id definition_id : Nat)
  | crossReference (shared_id : Nat)
deriving DecidableEq, Repr

/-- `TxtToDbError` of `src/txt_to_db.rs`. -/
inductive TxtToDbError where
  | parseError
  | sqliteError
  | invalidAsciiTag (c : Char)
  | noUsableParentNode
  | unknownReferenceType (c : Char)
  | referenceTargetNotFound (w : List Char)
  | noteIdNotFound (id : Nat)
deriving DecidableEq, Repr

/-- `TxtToDbErrorLine` of `src/txt_to_db.rs`. -/
structure TxtToDbErrorLine where
  err_line_idx : Nat
  error : TxtToDbError
deriving DecidableEq, Repr

/-- `CrossReferenceEntry` of `src/txt_to_db.rs` (the deferred queue). -/
structure CrossReferenceEntry where
  shared_id : Nat
  ref_type : Char
  src_word_id : Nat
  src_definition_id : Option Nat
  dst_word : Word
  dst_ext_def_id : Option Nat
  err_line_idx : Nat
deriving DecidableEq, Repr

/-- `NoteReferenceEntry` of `src/txt_to_db.rs`. -/
structure NoteReferenceEntry where
  target_shared_id : Nat
  ext_note_id : Nat
  err_line_idx : Nat
deriving DecidableEq, Repr

/-- The builder state `TxtToDb` of `src/txt_to_db.rs`. -/
structure BuildState where
  db : Db
  rank_counter : Nat
  line_stack : List (List DictNode)
  cross_references : List CrossReferenceEntry
  note_references : List NoteReferenceEntry
  err_lines : List (List Char × LineInfo)
  errors : List TxtToDbErrorLine
deriving DecidableEq, Repr

/-- The builder state at the start of an ingest. -/
def BuildState.init : BuildState :=
  ⟨Db.empty, 0, [], [], [], [], []⟩

/-- `impl fmt::Display for Word`: traditional form, then `／` and the
simplified form when present. -/
def wordDisplay (w : Word) : List Char :=
  match w.simp with
  | some s => w.trad ++ "／".toList ++ s
  | none => w.trad

/-- `create_shared_entry`: bump the rank counter, insert a `dict_shared` row
with that rank (and NULL `rank_relative`), return the new surrogate id. -/
def create_shared_entry (st : BuildState) : BuildState × Nat :=
  let rc := st.rank_counter + 1
  let id := st.db.shared.length + 1
  ({ st with
      rank_counter := rc,
      db := { st.db with shared := st.db.shared ++ [⟨id, rc, none, none, none⟩] } },
    id)

/-- `tag_to_txt` of `src/txt_to_db.rs`: full tags become `definition`-category
tags with no ASCII symbol; ASCII tags are resolved through
`tag_to_txt_ascii_common` (all entry types use the common table) and unknown
codes fail with `InvalidAsciiTag`. -/
def tag_to_txt (_entry_type : DictNode) :
    Tag → Except TxtToDbError (Option Char × List Char × List Char)
  | .full t => .ok (none, t, "definition".toList)
  | .ascii c =>
    match tag_to_txt_ascii_common c with
    | some (name, cat, _) => .ok (some c, name.toList, cat.toList)
    | none => .error (.invalidAsciiTag c)

/-- `add_tag_for_entry`: idempotent insert into `dict_tag`, look the tag row
up, then a plain insert into `dict_shared_tag`, whose primary key makes a
duplicate tag on the same Shared a storage error. -/
def add_tag_for_entry (st : BuildState) (shared_id : Nat) (tagAscii : Option Char)
    (tagTxt tagType : List Char) : Except TxtToDbError Unit × BuildState :=
  let db := st.db
  let db :=
    if db.tags.any (fun t => t.tag = tagTxt && t.ty = tagType) then db
    else { db with tags := db.tags ++
      [⟨db.tags.length + 1, tagTxt, tagType, tagAscii.map (fun c => [c])⟩] }
  match db.tags.find? (fun t => t.tag = tagTxt && t.ty = tagType) with
  | none => (.error .sqliteError, { st with db := db })
  | some t =>
    if db.sharedTags.any (fun p => p.for_shared_id = shared_id && p.tag_id = t.id) then
      (.error .sqliteError, { st with db := db })
    else
      (.ok (), { st with db :=
        { db with sharedTags := db.sharedTags ++ [⟨shared_id, t.id⟩] } })

/-- `add_tags_for_entry`: resolve and attach each tag in order, stopping at
the first failure (earlier inserts stay, the ingest transaction is not rolled
back per line). -/
def add_tags_for_entry (st : BuildState) (shared_id : Nat) (entry : DictNode) :
    Tags → Except TxtToDbError Unit × BuildState
  | [] => (.ok (), st)
  | tag :: rest =>
    match tag_to_txt entry tag with
    | .error e => (.error e, st)
    | .ok (a, txt, ty) =>
      match add_tag_for_entry st shared_id a txt ty with
      | (.error e, st1) => (.error e, st1)
      | (.ok _, st1) => add_tags_for_entry st1 shared_id entry rest

/-- `create_word_entry`: Shared, `dict_word` row (`simp` falls back to
`trad`; the unique index on `(trad, simp)` makes a duplicate a storage
error), then tags. -/
def create_word_entry (st : BuildState) (word : Word) (tags : Tags) :
    Except TxtToDbError DictNode × BuildState :=
  let trad := word.trad
  let simp := word.simp.getD word.trad
  let (st, shared_id) := create_shared_entry st
  if st.db.words.any (fun w => w.trad = trad && w.simp = simp) then
    (.error .sqliteError, st)
  else
    let wid := st.db.words.length + 1
    let st := { st with db :=
      { st.db with words := st.db.words ++ [⟨wid, shared_id, trad, simp⟩] } }
    let node := DictNode.word shared_id wid
    match add_tags_for_entry st shared_id node tags with
    | (.error e, st1) => (.error e, st1)
    | (.ok _, st1) => (.ok node, st1)

/-- `create_pinyin_entry`: Shared, idempotent `dict_pron` insert (the mark is
derived by `pinyin_mark_from_num`), a `dict_shared_pron` row, then tags. -/
def create_pinyin_entry (st : BuildState) (pinyin_num : List Char) (tags : Tags) :
    Except TxtToDbError DictNode × BuildState :=
  let (st, shared_id) := create_shared_entry st
  let db := st.db
  let db :=
    if db.prons.any (fun p => p.pinyin_num = pinyin_num) then db
    else { db with prons := db.prons ++
      [⟨db.prons.length + 1, pinyin_num, pinyin_mark_from_num pinyin_num⟩] }
  match db.prons.find? (fun p => p.pinyin_num = pinyin_num) with
  | none => (.error .sqliteError, { st with db := db })
  | some p =>
    let spid := db.sharedProns.length + 1
    let st := { st with db :=
      { db with sharedProns := db.sharedProns ++ [⟨spid, shared_id, p.id⟩] } }
    let node := DictNode.pinyin shared_id spid
    match add_tags_for_entry st shared_id node tags with
    | (.error e, st1) => (.error e, st1)
    | (.ok _, st1) => (.ok node, st1)

/-- `create_class_entry`: idempotent insert by name, no Shared. -/
def create_class_entry (st : BuildState) (name : List Char) :
    Except TxtToDbError (List DictNode) × BuildState :=
  let db := st.db
  let db :=
    if db.classes.any (fun c => c.name = name) then db
    else { db with classes := db.classes ++ [⟨db.classes.length + 1, name⟩] }
  match db.classes.find? (fun c => c.name = name) with
  | none => (.error .sqliteError, { st with db := db })
  | some c => (.ok [DictNode.cls c.id], { st with db := db })

/-- `create_definition_entry`: Shared, `dict_definition` row (the unique
index on `(word_id, ext_def_id)` makes a duplicate a storage error), then
tags. -/
def create_definition_entry (st : BuildState) (word_id : Nat)
    (dt : DefinitionTag) (class_id : Nat) :
    Except TxtToDbError DictNode × BuildState :=
  let (st, shared_id) := create_shared_entry st
  if st.db.defs.any (fun d => d.word_id = word_id && d.ext_def_id = dt.id) then
    (.error .sqliteError, st)
  else
    let did := st.db.defs.length + 1
    let st := { st with db := { st.db with defs := st.db.defs ++
      [⟨did, shared_id, word_id, dt.definition, dt.id, class_id⟩] } }
    let node := DictNode.definition shared_id word_id did
    match add_tags_for_entry st shared_id node dt.tags with
    | (.error e, st1) => (.error e, st1)
    | (.ok _, st1) => (.ok node, st1)

/-- `create_pron_definition_entry`: link a SharedPron to a Definition. -/
def create_pron_definition_entry (st : BuildState) (shared_pron_id definition_id : Nat) :
    BuildState × Nat :=
  let id := st.db.pronDefs.length + 1
  ({ st with db := { st.db with pronDefs := st.db.pronDefs ++
      [⟨id, shared_pron_id, definition_id⟩] } }, id)

/-- `create_cross_reference_entry`: Shared and tags now, the reference itself
deferred into the queue (the destination word may not exist yet). -/
def create_cross_reference_entry (st : BuildState) (ref_type : Char)
    (word_id_src : Nat) (definition_id_src : Option Nat) (word_dst : Word)
    (ext_def_id_dst : Option Nat) (tags : Tags) :
    Except TxtToDbError DictNode × BuildState :=
  let (st, shared_id) := create_shared_entry st
  let node := DictNode.crossReference shared_id
  match add_tags_for_entry st shared_id node tags with
  | (.error e, st1) => (.error e, st1)
  | (.ok _, st1) =>
    (.ok node, { st1 with cross_references := st1.cross_references ++
      [⟨shared_id, ref_type, word_id_src, definition_id_src, word_dst,
        ext_def_id_dst, st1.err_lines.length⟩] })

/-- `create_note`: insert a `dict_note` row; the unique index on
`ext_note_id` makes a duplicate a storage error. -/
def create_note (st : BuildState) (ext_note_id : Nat) (note_txt : List Char) :
    Except TxtToDbError Nat × BuildState :=
  if st.db.notes.any (fun n => n.ext_note_id = ext_note_id) then
    (.error .sqliteError, st)
  else
    let id := st.db.notes.length + 1
    (.ok id, { st with db := { st.db with notes := st.db.notes ++
      [⟨id, note_txt, ext_note_id⟩] } })

/-- `add_note_to_entry`: set `note_id` on the target Shared; zero updated
rows is reported as `NoUsableParentNode`. -/
def add_note_to_entry (st : BuildState) (note_id target_shared_id : Nat) :
    Except TxtToDbError Nat × BuildState :=
  if st.db.shared.any (fun s => s.id = target_shared_id) then
    let upd := fun (s : SharedRow) =>
      if s.id = target_shared_id then { s with note_id := some note_id } else s
    (.ok 1, { st with db := { st.db with shared := st.db.shared.map upd } })
  else (.error .noUsableParentNode, st)

/-- `create_comment`: insert a `dict_comment` row. -/
def create_comment (st : BuildState) (comment_txt : List Char) : BuildState × Nat :=
  let id := st.db.comments.length + 1
  ({ st with db := { st.db with comments := st.db.comments ++
      [⟨id, comment_txt⟩] } }, id)

/-- `add_comment_to_entry`: set `comment_id` on the target Shared. -/
def add_comment_to_entry (st : BuildState) (comment_id target_shared_id : Nat) :
    Except TxtToDbError Nat × BuildState :=
  if st.db.shared.any (fun s => s.id = target_shared_id) then
    let upd := fun (s : SharedRow) =>
      if s.id = target_shared_id then { s with comment_id := some comment_id } else s
    (.ok 1, { st with db := { st.db with shared := st.db.shared.map upd } })
  else (.error .noUsableParentNode, st)

/-- `get_shared_id_for_dict_node`: every node except a Class carries its
Shared id. -/
def get_shared_id_for_dict_node : DictNode → Except TxtToDbError Nat
  | .word shared_id _ => .ok shared_id
  | .pinyin shared_id _ => .ok shared_id
  | .cls _ => .error .noUsableParentNode
  | .definition shared_id _ _ => .ok shared_id
  | .crossReference shared_id => .ok shared_id

/-- Inner loop of `add_word_line_to_db` over the words of one tag group: a
word entry is created for every word, but only the first node of the line is
kept. -/
def add_word_line_words (st : BuildState) (tags : Tags) (items : List DictNode) :
    List Word → (Except TxtToDbError (List DictNode)) × BuildState
  | [] => (.ok items, st)
  | w :: ws =>
    match create_word_entry st w tags with
    | (.error e, st1) => (.error e, st1)
    | (.ok node, st1) =>
      let items := if items.isEmpty then [node] else items
      add_word_line_words st1 tags items ws

/-- Outer loop of `add_word_line_to_db` over the tag groups. -/
def add_word_line_groups (st : BuildState) (items : List DictNode) :
    List WordTagGroup → (Except TxtToDbError (List DictNode)) × BuildState
  | [] => (.ok items, st)
  | g :: gs =>
    match add_word_line_words st g.tags items g.words with
    | (.error e, st1) => (.error e, st1)
    | (.ok items1, st1) => add_word_line_groups st1 items1 gs

/-- `add_word_line_to_db` of `src/txt_to_db.rs`. -/
def add_word_line_to_db (st : BuildState) (groups : List WordTagGroup) :
    (Except TxtToDbError (List DictNode)) × BuildState :=
  add_word_line_groups st [] groups

/-- Attach a comment to every node of the parent frame, counting targets. -/
def add_comment_targets (st : BuildState) (comment_id : Nat) (n : Nat) :
    List DictNode → (Except TxtToDbError Nat) × BuildState
  | [] => (.ok n, st)
  | node :: rest =>
    match get_shared_id_for_dict_node node with
    | .error e => (.error e, st)
    | .ok shared_id =>
      match add_comment_to_entry st comment_id shared_id with
      | (.error e, st1) => (.error e, st1)
      | (.ok k, st1) => add_comment_targets st1 comment_id (n + k) rest

/-- `add_comment_line_to_db` of `src/txt_to_db.rs`: with an empty parent
stack a comment is only allowed before any rank was allocated (the header
comment, which gets its own fresh Shared); otherwise it attaches to every
node of the innermost frame, and zero usable targets is an error. -/
def add_comment_line_to_db (st : BuildState) (comment : List Char) :
    (Except TxtToDbError (List DictNode)) × BuildState :=
  let (st, comment_id) := create_comment st comment
  if st.line_stack.isEmpty then
    if st.rank_counter = 0 then
      let (st, shared_id) := create_shared_entry st
      match add_comment_to_entry st comment_id shared_id with
      | (.error e, st1) => (.error e, st1)
      | (.ok _, st1) => (.ok [], st1)
    else (.error .noUsableParentNode, st)
  else
    match add_comment_targets st comment_id 0 (st.line_stack.getLast?.getD []) with
    | (.error e, st1) => (.error e, st1)
    | (.ok n, st1) =>
      if n = 0 then (.error .noUsableParentNode, st1) else (.ok [], st1)

/-- Attach a note (or queue a note link) on every node of the parent frame,
counting targets. -/
def add_note_targets (st : BuildState) (note : Note) (note_id : Option Nat) (n : Nat) :
    List DictNode → (Except TxtToDbError Nat) × BuildState
  | [] => (.ok n, st)
  | node :: rest =>
    match get_shared_id_for_dict_node node with
    | .error e => (.error e, st)
    | .ok shared_id =>
      if note.is_link then
        let st1 := { st with note_references := st.note_references ++
          [⟨shared_id, note.id, st.err_lines.length⟩] }
        add_note_targets st1 note note_id (n + 1) rest
      else
        match add_note_to_entry st (note_id.getD 0) shared_id with
        | (.error e, st1) => (.error e, st1)
        | (.ok k, st1) => add_note_targets st1 note note_id (n + k) rest

/-- `add_note_line_to_db` of `src/txt_to_db.rs`: create the note unless the
line is a link, then attach it to every node of the innermost frame (links
are queued for deferred resolution); zero targets is an error. -/
def add_note_line_to_db (st : BuildState) (note : Note) :
    (Except TxtToDbError (List DictNode)) × BuildState :=
  let created : (Except TxtToDbError (Option Nat)) × BuildState :=
    if !note.is_link then
      match create_note st note.id note.note with
      | (.error e, st1) => (.error e, st1)
      | (.ok id, st1) => (.ok (some id), st1)
    else (.ok none, st)
  match created with
  | (.error e, st1) => (.error e, st1)
  | (.ok note_id, st1) =>
    match add_note_targets st1 note note_id 0 (st1.line_stack.getLast?.getD []) with
    | (.error e, st2) => (.error e, st2)
    | (.ok n, st2) =>
      if n = 0 then (.error .noUsableParentNode, st2) else (.ok [], st2)

/-- Inner loop of `add_cross_reference_line_to_db` over the references of one
tag group. -/
def add_xref_refs (st : BuildState) (ref_type : Char) (src_word_id : Nat)
    (src_definition_id : Option Nat) (tags : Tags) (items : List DictNode) :
    List Reference → (Except TxtToDbError (List DictNode)) × BuildState
  | [] => (.ok items, st)
  | r :: rs =>
    match create_cross_reference_entry st ref_type src_word_id src_definition_id
        r.target_word (r.target_id.map Prod.snd) tags with
    | (.error e, st1) => (.error e, st1)
    | (.ok node, st1) =>
      add_xref_refs st1 ref_type src_word_id src_definition_id tags
        (items ++ [node]) rs

/-- Outer loop of `add_cross_reference_line_to_db` over the tag groups. -/
def add_xref_groups (st : BuildState) (src_word_id : Nat)
    (src_definition_id : Option Nat) (items : List DictNode) :
    List ReferenceTagGroup → (Except TxtToDbError (List DictNode)) × BuildState
  | [] => (.ok items, st)
  | g :: gs =>
    match add_xref_refs st g.ref_type src_word_id src_definition_id g.tags
        items g.references with
    | (.error e, st1) => (.error e, st1)
    | (.ok items1, st1) => add_xref_groups st1 src_word_id src_definition_id items1 gs

/-- `add_cross_reference_line_to_db` of `src/txt_to_db.rs`: requires a Word as
the first node of the outermost frame (a Definition as the first node of the
innermost frame supplies the source definition); when that Word is absent the
line produces no entries and NO error (`Ok(vec![])`). -/
def add_cross_reference_line_to_db (st : BuildState)
    (groups : List ReferenceTagGroup) :
    (Except TxtToDbError (List DictNode)) × BuildState :=
  match st.line_stack.head?.bind List.head? with
  | some (.word _ src_word_id) =>
    let src_definition_id : Option Nat :=
      match st.line_stack.getLast?.bind List.head? with
      | some (.definition _ _ d) => some d
      | _ => none
    add_xref_groups st src_word_id src_definition_id [] groups
  | _ => (.ok [], st)

/-- Link every pinyin node of the indent-1 frame to a new definition. -/
def add_def_pron_links (st : BuildState) (definition_id : Nat) :
    List DictNode → (Except TxtToDbError Unit) × BuildState
  | [] => (.ok (), st)
  | .pinyin _ spid :: rest =>
    let (st1, _) := create_pron_definition_entry st spid definition_id
    add_def_pron_links st1 definition_id rest
  | _ :: _ => (.error .noUsableParentNode, st)

/-- `add_definition_line_to_db` of `src/txt_to_db.rs`: requires a Word as the
first node of the outermost frame and a Class as the first node of the
depth-2 frame (otherwise `NoUsableParentNode` and nothing is inserted), then
creates the Definition and links every pinyin node of the depth-1 frame. -/
def add_definition_line_to_db (st : BuildState) (dt : DefinitionTag) :
    (Except TxtToDbError (List DictNode)) × BuildState :=
  match st.line_stack.head?.bind List.head? with
  | some (.word _ word_id) =>
    match (st.line_stack.get? 2).bind List.head? with
    | some (.cls class_id) =>
      match create_definition_entry st word_id dt class_id with
      | (.error e, st1) => (.error e, st1)
      | (.ok node, st1) =>
        match node with
        | .definition _ _ definition_id =>
          match add_def_pron_links st1 definition_id
              ((st1.line_stack.get? 1).getD []) with
          | (.error e, st2) => (.error e, st2)
          | (.ok _, st2) => (.ok [node], st2)
        | _ => (.ok [node], st1)
    | _ => (.error .noUsableParentNode, st)
  | _ => (.error .noUsableParentNode, st)

/-- Inner loop of `add_pinyin_line_to_db` over the pinyins of one tag group:
a nested pinyin line (stack depth exactly 2) also appends its nodes into the
depth-1 frame. -/
def add_pinyin_line_pinyins (st : BuildState) (tags : Tags) (items : List DictNode) :
    List (List Char) → (Except TxtToDbError (List DictNode)) × BuildState
  | [] => (.ok items, st)
  | p :: ps =>
    match create_pinyin_entry st p tags with
    | (.error e, st1) => (.error e, st1)
    | (.ok node, st1) =>
      let st2 :=
        if st1.line_stack.length = 2 then
          let frame1 := (st1.line_stack.get? 1).getD [] ++ [node]
          { st1 with line_stack := st1.line_stack.set 1 frame1 }
        else st1
      add_pinyin_line_pinyins st2 tags (items ++ [node]) ps

/-- Outer loop of `add_pinyin_line_to_db` over the tag groups. -/
def add_pinyin_line_groups (st : BuildState) (items : List DictNode) :
    List PinyinTagGroup → (Except TxtToDbError (List DictNode)) × BuildState
  | [] => (.ok items, st)
  | g :: gs =>
    match add_pinyin_line_pinyins st g.tags items g.pinyins with
    | (.error e, st1) => (.error e, st1)
    | (.ok items1, st1) => add_pinyin_line_groups st1 items1 gs

/-- `add_pinyin_line_to_db` of `src/txt_to_db.rs`. -/
def add_pinyin_line_to_db (st : BuildState) (groups : List PinyinTagGroup) :
    (Except TxtToDbError (List DictNode)) × BuildState :=
  add_pinyin_line_groups st [] groups

/-- `add_line_to_db` of `src/txt_to_db.rs`: truncate the parent stack to the
indentation, run the per-line effect, push the produced frame on success or
record the error on failure; returns (line ok?, keep line for diagnostics?). -/
def add_line_to_db (st : BuildState) (line_info : LineInfo) (line : DictLine) :
    (Bool × Bool) × BuildState :=
  let st := { st with line_stack := st.line_stack.take line_info.indentation }
  let (line_items, keep_line) :=
    match line with
    | .word groups => (add_word_line_to_db st groups, false)
    | .pinyin groups => (add_pinyin_line_to_db st groups, false)
    | .cls name => (create_class_entry st name, false)
    | .definition dt => (add_definition_line_to_db st dt, false)
    | .crossReference groups => (add_cross_reference_line_to_db st groups, true)
    | .note n => (add_note_line_to_db st n, n.is_link)
    | .comment c => (add_comment_line_to_db st c, false)
  match line_items with
  | (.ok items, st1) =>
    ((true, keep_line), { st1 with line_stack := st1.line_stack ++ [items] })
  | (.error e, st1) =>
    ((false, true), { st1 with errors := st1.errors ++
      [⟨st1.err_lines.length, e⟩] })

/-- One lexed line together with its parse result (`ParsedLine` of
`src/txt_parser.rs`). -/
structure ParsedLine where
  line : LineInfo
  parsed_line : Except Unit DictLine
deriving Repr

/-- The main ingest loop of `txt_to_db` over the parsed-line stream,
threading the current word for diagnostics and the discard-until-next-W
flag. -/
def txt_to_db_loop (st : BuildState) (cur_word : List Char) (cur_word_error : Bool) :
    List ParsedLine → BuildState
  | [] => st
  | pl :: rest =>
    match pl.parsed_line with
    | .ok parsed =>
      let (cur_word, cur_word_error) :=
        match parsed with
        | .word groups =>
          ((groups.head?.bind (fun g => g.words.head?)).map Word.trad
            |>.getD "unknown".toList, false)
        | _ => (cur_word, cur_word_error)
      if cur_word_error then txt_to_db_loop st cur_word cur_word_error rest
      else
        let ((is_ok, keep_line), st1) := add_line_to_db st pl.line parsed
        let cur_word_error := cur_word_error || !is_ok
        let st2 :=
          if keep_line then
            { st1 with err_lines := st1.err_lines ++ [(cur_word, pl.line)] }
          else st1
        txt_to_db_loop st2 cur_word cur_word_error rest
    | .error _ =>
      let st1 := { st with
        errors := st.errors ++ [⟨st.err_lines.length, .parseError⟩],
        err_lines := st.err_lines ++ [(cur_word, pl.line)] }
      txt_to_db_loop st1 cur_word true rest

/-- Deferred cross-reference resolution (`complete_cross_reference_entries`):
look the destination word (and optionally definition) up, resolve the
reference type, materialize the `dict_reference` row; a missing target or
unknown type records an error and skips the entry. -/
def complete_xref_one (st : BuildState) (r : CrossReferenceEntry) : BuildState :=
  let trad := r.dst_word.trad
  let simp := (r.dst_word.simp).getD r.dst_word.trad
  match st.db.words.find? (fun w => w.trad = trad && w.simp = simp) with
  | none =>
    { st with errors := st.errors ++
      [⟨r.err_line_idx, .referenceTargetNotFound (wordDisplay r.dst_word)⟩] }
  | some w =>
    let dstDef : Except Unit (Option Nat) :=
      match r.dst_ext_def_id with
      | some ext =>
        match st.db.defs.find? (fun d => d.word_id = w.id && d.ext_def_id = ext) with
        | none => .error ()
        | some d => .ok (some d.id)
      | none => .ok none
    match r.dst_ext_def_id, dstDef with
    | some ext, .error _ =>
      { st with errors := st.errors ++
        [⟨r.err_line_idx, .referenceTargetNotFound
          (wordDisplay r.dst_word ++ "D#".toList ++ natToChars ext)⟩] }
    | _, .error _ => st
    | _, .ok dst_definition_id =>
      match get_ref_type r.ref_type with
      | none =>
        { st with errors := st.errors ++
          [⟨r.err_line_idx, .unknownReferenceType r.ref_type⟩] }
      | some (full, sym) =>
        let db := st.db
        let db :=
          if db.refTypes.any (fun t => t.ty = full.toList) then db
          else { db with refTypes := db.refTypes ++
            [⟨db.refTypes.length + 1, full.toList, [r.ref_type], sym⟩] }
        match db.refTypes.find? (fun t => t.ty = full.toList) with
        | none => { st with db := db }
        | some rt =>
          { st with db := { db with refs := db.refs ++
            [⟨db.refs.length + 1, r.shared_id, rt.id, r.src_word_id,
              r.src_definition_id, w.id, dst_definition_id⟩] } }

/-- `complete_cross_reference_entries`: drain the deferred queue. -/
def complete_cross_reference_entries (st : BuildState) : BuildState :=
  let q := st.cross_references
  q.foldl complete_xref_one { st with cross_references := [] }

/-- `complete_id_reference_entries`: resolve each queued `N->` link through
the unique `ext_note_id` index, or record `NoteIdNotFound`. -/
def complete_id_one (st : BuildState) (r : NoteReferenceEntry) : BuildState :=
  match st.db.notes.find? (fun n => n.ext_note_id = r.ext_note_id) with
  | none =>
    { st with errors := st.errors ++
      [⟨r.err_line_idx, .noteIdNotFound r.ext_note_id⟩] }
  | some n => (add_note_to_entry st n.id r.target_shared_id).2

/-- `complete_id_reference_entries`: drain the deferred note-link queue. -/
def complete_id_reference_entries (st : BuildState) : BuildState :=
  let q := st.note_references
  q.foldl complete_id_one { st with note_references := [] }

/-- Lex and parse physical lines into the parsed-line stream. -/
def parseStream (physLines : List (List Char)) : List ParsedLine :=
  (lexPhysicalLines physLines).map (fun li => ⟨li, parse_line li.line⟩)

/-- `txt_to_db` of `src/txt_to_db.rs`: the whole ingest of a physical-line
list into a fresh database. -/
def txt_to_db (physLines : List (List Char)) : BuildState :=
  complete_id_reference_entries (complete_cross_reference_entries
    (txt_to_db_loop BuildState.init "header".toList false (parseStream physLines)))

/-- Split at every newline, keeping all fragments (helper for `str::lines`). -/
def splitOnNewline : List Char → List (List Char)
  | [] => [[]]
  | c :: cs =>
    if c = '\n' then [] :: splitOnNewline cs
    else
      match splitOnNewline cs with
      | f :: rest => (c :: f) :: rest
      | [] => [[c]]

/-- Rust `str::lines` (and `BufRead::lines` on these inputs): newline as a
terminator, so no empty trailing line; the converter never produces `\r`. -/
def rustLines (s : List Char) : List (List Char) :=
  if s.isEmpty then []
  else
    let f := splitOnNewline s
    if f.getLast? = some [] then f.dropLast else f

/-- Concatenate with a separator (itertools `join`). -/
def joinSep (sep : List Char) : List (List Char) → List Char
  | [] => []
  | [x] => x
  | x :: xs => x ++ sep ++ joinSep sep xs

/-- `INDENT_STR.repeat(n)` for the default one-space indent unit. -/
def indentStr (n : Nat) : List Char :=
  List.replicate n ' '

/-- `format_multiline` of `src/db_to_txt.rs`: continuation lines are indented
`indent_level + 2`. -/
def format_multiline (s : List Char) (indent_level : Nat) : List Char :=
  joinSep ('\n' :: indentStr (indent_level + 2)) (rustLines s)

/-- `format_word` of `src/db_to_txt.rs`: one form when both agree, else
`trad／simp`. -/
def format_word (trad simp : List Char) : List Char :=
  if trad = simp then trad else trad ++ "／".toList ++ simp

/-- Group consecutive elements with equal keys (itertools `chunk_by`). -/
def chunkBy {α β : Type} [DecidableEq β] (key : α → β) : List α → List (List α)
  | [] => []
  | a :: rest =>
    match chunkBy key rest with
    | (b :: g) :: gs =>
      if key a = key b then (a :: b :: g) :: gs else [a] :: (b :: g) :: gs
    | [] :: gs => [a] :: gs
    | [] => [[a]]

/-- Stable insertion into a sorted list: a new element goes after every
element that compares less-or-equal to it. -/
def insertSorted {α : Type} (le : α → α → Bool) (a : α) : List α → List α
  | [] => [a]
  | b :: bs => if le b a then b :: insertSorted le a bs else a :: b :: bs

/-- Stable sort by a boolean total preorder (models Rust stable
`sort_by_key` and unique-key SQL `ORDER BY`). -/
def sortStable {α : Type} (le : α → α → Bool) (l : List α) : List α :=
  l.foldl (fun acc a => insertSorted le a acc) []

/-- Sort key for `ORDER BY rank, rank_relative`: SQLite orders NULL before
every integer. -/
def sharedOrderKey (s : SharedRow) : Nat × Nat × Nat :=
  match s.rank_relative with
  | none => (s.rank, 0, 0)
  | some v => (s.rank, 1, v)

/-- Lexicographic comparison of rank keys. -/
def rankKeyLe (a b : Nat × Nat × Nat) : Bool :=
  a.1 < b.1 || (a.1 = b.1 && (a.2.1 < b.2.1 ||
    (a.2.1 = b.2.1 && a.2.2 ≤ b.2.2)))

/-- Byte-lexicographic order on strings (UTF-8 byte order coincides with
scalar-value order). -/
def lexLe : List Char → List Char → Bool
  | [], _ => true
  | _ :: _, [] => false
  | a :: as, b :: bs =>
    if a.toNat < b.toNat then true
    else if a.toNat = b.toNat then lexLe as bs
    else false

/-- `DbToTxtError` of `src/db_to_txt.rs` (storage errors; the I/O and
invalid-data variants are unreachable in the model). -/
inductive DbToTxtError where
  | sqliteError
  | invalidDbData
deriving DecidableEq, Repr

/-- Renderer state: the output bytes and the set of already written
`ext_note_id`s. -/
structure RenderState where
  out : List Char
  written_notes : List Nat
deriving DecidableEq, Repr

/-- `get_formatted_tags` of `src/db_to_txt.rs`: fetch the tag rows of one
Shared (through the `(for_shared_id, tag_id)` index, hence in tag-id order),
split into ASCII and full tags, stable-sort ASCII tags by registry sort rank
(unknown codes rank 0) and full tags lexicographically, and render
`|ascii full| ` (with `|| ` for the empty set). -/
def get_formatted_tags (db : Db) (shared_id : Nat) : List Char :=
  let rows := sortStable (fun a b => a.tag_id ≤ b.tag_id)
    (db.sharedTags.filter (fun p => p.for_shared_id = shared_id))
  let items := rows.filterMap (fun p => db.tags.find? (fun t => t.id = p.tag_id))
  let ascii_tags := items.filterMap (fun t =>
    match t.ascii_symbol with
    | some s => if s.isEmpty then none else some s
    | none => none)
  let full_tags := items.filterMap (fun t =>
    match t.ascii_symbol with
    | some _ => none
    | none => some ('#' :: t.tag))
  let rankOf := fun (s : List Char) =>
    match s with
    | c :: _ => ((tag_to_txt_ascii_common c).map (fun (v : String × String × Nat) => v.2.2)).getD 0
    | [] => 0
  let ascii_tags := sortStable (fun a b => rankOf a ≤ rankOf b) ascii_tags
  let full_tags := sortStable lexLe full_tags
  if ascii_tags.isEmpty && full_tags.isEmpty then "|| ".toList
  else
    let space := if full_tags.isEmpty then [] else [' ']
    '|' :: (ascii_tags.flatten ++ space ++ joinSep [' '] full_tags) ++ "| ".toList

/-- `write_shared_items_from_ids` of `src/db_to_txt.rs`: emit the comment
(`# ...`) and then the note of one Shared. A note already written, or any
note at indent 0 (the header pointer), is emitted as an `N->` link;
otherwise the text is written and the id recorded. -/
def write_shared_items_from_ids (db : Db) (rs : RenderState)
    (comment_id note_id : Option Nat) (indent : Nat) :
    Except DbToTxtError RenderState := do
  let ind := indentStr indent
  let rs ←
    match comment_id with
    | some id =>
      match db.comments.find? (fun c => c.id = id) with
      | none => throw .sqliteError
      | some c =>
        pure { rs with out := rs.out ++ ind ++ "# ".toList ++
          format_multiline c.comment indent ++ ['\n'] }
    | none => pure rs
  match note_id with
  | some id =>
    match db.notes.find? (fun n => n.id = id) with
    | none => throw .sqliteError
    | some n =>
      if rs.written_notes.contains n.ext_note_id || indent = 0 then
        let line := ind ++ "N->".toList ++ natToChars n.ext_note_id ++ ['\n']
        pure { rs with out := rs.out ++ line }
      else
        let line := ind ++ 'N' :: natToChars n.ext_note_id ++ [' '] ++
          format_multiline n.note indent ++ ['\n']
        let wn := rs.written_notes ++ [n.ext_note_id]
        pure { rs with out := rs.out ++ line, written_notes := wn }
  | none => pure rs

/-- `write_shared_items` of `src/db_to_txt.rs`. -/
def write_shared_items (db : Db) (rs : RenderState) (shared_id indent : Nat) :
    Except DbToTxtError RenderState :=
  match db.shared.find? (fun s => s.id = shared_id) with
  | none => throw .sqliteError
  | some s => write_shared_items_from_ids db rs s.comment_id s.note_id indent

/-- Data fetched per reference row by `write_cross_references`. -/
structure CrossReferenceData where
  ref_type_symbol : List Char
  tags : List Char
  note_id : Option Nat
  comment_id : Option Nat
  reference_str : List Char
deriving DecidableEq, Repr

/-- Emit one `X` line per (type, note, comment) chunk; loop helper. -/
def write_xref_lines (db : Db) (indent : Nat) :
    List (List CrossReferenceData) → RenderState →
    Except DbToTxtError RenderState
  | [], rs => pure rs
  | [] :: rest, rs => write_xref_lines db indent rest rs
  | (item :: items) :: rest, rs => do
    let group := item :: items
    let tag_groups := (chunkBy (fun d => d.tags) group).map (fun g =>
      (g.head?.map (fun d => d.tags)).getD [] ++
        joinSep "; ".toList (g.map (fun d => d.reference_str)))
    let rs := { rs with out := rs.out ++ indentStr indent ++
      'X' :: item.ref_type_symbol ++ joinSep [' '] tag_groups ++ ['\n'] }
    let rs ← write_shared_items_from_ids db rs item.comment_id item.note_id
      (indent + 1)
    write_xref_lines db indent rest rs

/-- `write_cross_references` of `src/db_to_txt.rs`: fetch the references of
one word (or one definition) in rank order, group them by
(type, note, comment) into lines and by tag set within a line. -/
def write_cross_references (db : Db) (rs : RenderState) (src_word_id : Nat)
    (src_def_id : Option Nat) (indent : Nat) : Except DbToTxtError RenderState :=
  let rows := db.refs.filter (fun r =>
    r.word_id_src = src_word_id && r.definition_id_src = src_def_id)
  let rows := rows.filterMap (fun r =>
    (db.shared.find? (fun s => s.id = r.shared_id)).map (fun s => (r, s)))
  let rows := sortStable
    (fun a b => rankKeyLe (sharedOrderKey a.2) (sharedOrderKey b.2)) rows
  let data := rows.filterMap (fun rw =>
    match db.refTypes.find? (fun t => t.id = rw.1.ref_type_id),
        db.words.find? (fun w => w.id = rw.1.word_id_dst) with
    | some rt, some w =>
      let word_str := format_word w.trad w.simp
      let dstExt := (rw.1.definition_id_dst.bind (fun d =>
        db.defs.find? (fun dd => dd.id = d))).map (fun dd => dd.ext_def_id)
      let reference_str :=
        match dstExt with
        | some ext => word_str ++ "#D".toList ++ natToChars ext
        | none => word_str
      some ⟨rt.ascii_symbol, get_formatted_tags db rw.1.shared_id,
        rw.2.note_id, rw.2.comment_id, reference_str⟩
    | _, _ => none)
  if data.isEmpty then pure rs
  else
    write_xref_lines db indent
      (chunkBy (fun d => (d.ref_type_symbol, d.note_id, d.comment_id)) data) rs

/-- The per-definition row of the renderer driving query
(`DefinitionEntry` of `src/db_to_txt.rs`). -/
structure DefinitionEntry where
  word_id : Nat
  word_shared_id : Nat
  trad : List Char
  simp : List Char
  pinyin_shared_ids : List Nat
  class_id : Nat
  class_name : List Char
  def_id : Nat
  def_shared_id : Nat
  ext_def_id : Nat
  definition : List Char
deriving DecidableEq, Repr

/-- Data fetched per pinyin binding by `write_pinyin_entries`. -/
structure PinyinData where
  pinyin_num : List Char
  note_id : Option Nat
  comment_id : Option Nat
  tags : List Char
deriving DecidableEq, Repr

/-- Fetch the `PinyinData` of one pinyin Shared bound to a definition. -/
def fetch_pinyin_data (db : Db) (def_id psid : Nat) :
    Except DbToTxtError PinyinData :=
  match db.sharedProns.find? (fun sp => sp.shared_id = psid &&
      db.pronDefs.any (fun l => l.shared_pron_id = sp.id &&
        l.definition_id = def_id)) with
  | none => throw .sqliteError
  | some sp =>
    match db.prons.find? (fun p => p.id = sp.pron_id),
        db.shared.find? (fun s => s.id = psid) with
    | some p, some s =>
      pure ⟨p.pinyin_num, s.note_id, s.comment_id, get_formatted_tags db psid⟩
    | _, _ => throw .sqliteError

/-- Fetch all `PinyinData` rows in the order of the id list. -/
def fetch_pinyin_datas (db : Db) (def_id : Nat) :
    List Nat → Except DbToTxtError (List PinyinData)
  | [] => pure []
  | psid :: rest => do
    let d ← fetch_pinyin_data db def_id psid
    let ds ← fetch_pinyin_datas db def_id rest
    pure (d :: ds)

/-- Emit the `P` lines of one (note, comment) chunk list: the first chunk at
indent 1, later chunks at indent 2, each followed by its comment and note. -/
def write_pinyin_chunks (db : Db) :
    List (List PinyinData) → Nat → RenderState → Except DbToTxtError RenderState
  | [], _, rs => pure rs
  | [] :: rest, _, rs => write_pinyin_chunks db rest 2 rs
  | (item :: items) :: rest, lvl, rs => do
    let group := item :: items
    let tags_pinyins := joinSep [' ']
      ((chunkBy (fun d => d.tags) group).map (fun g =>
        (g.head?.map (fun d => d.tags)).getD [] ++
          joinSep "; ".toList (g.map (fun d => d.pinyin_num))))
    let rs := { rs with out := rs.out ++ indentStr lvl ++ 'P' :: tags_pinyins ++ ['\n'] }
    let rs ← write_shared_items_from_ids db rs item.comment_id item.note_id (lvl + 1)
    write_pinyin_chunks db rest 2 rs

/-- `write_pinyin_entries` of `src/db_to_txt.rs`: fetch the pinyin data of
the definition, group by (note, comment) into `P` lines (first at indent 1,
the rest at indent 2), and by tag set within a line. -/
def write_pinyin_entries (db : Db) (rs : RenderState) (def_id : Nat)
    (pinyin_shared_ids : List Nat) : Except DbToTxtError RenderState := do
  let pinyin_data ← fetch_pinyin_datas db def_id pinyin_shared_ids
  write_pinyin_chunks db
    (chunkBy (fun d => (d.note_id, d.comment_id)) pinyin_data) 1 rs

/-- `write_class_entry` of `src/db_to_txt.rs`. -/
def write_class_entry (rs : RenderState) (class_name : List Char) : RenderState :=
  { rs with out := rs.out ++ indentStr 2 ++ "C ".toList ++ class_name ++ ['\n'] }

/-- `write_word_entry` of `src/db_to_txt.rs`: the `W` line, then the word
Shared items at indent 1, then the word-level cross-references. -/
def write_word_entry (db : Db) (rs : RenderState) (entry : DefinitionEntry) :
    Except DbToTxtError RenderState := do
  let tags := get_formatted_tags db entry.word_shared_id
  let word_str := format_word entry.trad entry.simp
  let rs := { rs with out := rs.out ++ 'W' :: tags ++ word_str ++ ['\n'] }
  let rs ← write_shared_items db rs entry.word_shared_id 1
  write_cross_references db rs entry.word_id none 1

/-- `write_definition_entry` of `src/db_to_txt.rs`: the `D` line at indent 3
(continuations at 5), then the definition Shared items and the
definition-level cross-references at indent 4. -/
def write_definition_entry (db : Db) (rs : RenderState) (entry : DefinitionEntry) :
    Except DbToTxtError RenderState := do
  let tags := get_formatted_tags db entry.def_shared_id
  let line := indentStr 3 ++ 'D' :: natToChars entry.ext_def_id ++ tags ++
    format_multiline entry.definition 3 ++ ['\n']
  let rs := { rs with out := rs.out ++ line }
  let rs ← write_shared_items db rs entry.def_shared_id 4
  write_cross_references db rs entry.word_id (some entry.def_id) 4

/-- Assemble the rows of the renderer driving query: every definition joined
with its Shared, word and class (inner joins), the bound pinyin Shared ids in
rank order, all ordered by the definition Shared rank. -/
def definitionEntries (db : Db) : List DefinitionEntry :=
  let rows := db.defs.filterMap (fun d =>
    match db.shared.find? (fun s => s.id = d.shared_id),
        db.words.find? (fun w => w.id = d.word_id),
        db.classes.find? (fun c => c.id = d.class_id) with
    | some s, some w, some c =>
      let links := db.pronDefs.filter (fun l => l.definition_id = d.id)
      let pshareds := links.filterMap (fun l =>
        (db.sharedProns.find? (fun sp => sp.id = l.shared_pron_id)).bind
          (fun sp => (db.shared.find? (fun ps => ps.id = sp.shared_id)).map
            (fun ps => ps)))
      let pshareds := sortStable
        (fun a b => rankKeyLe (sharedOrderKey a) (sharedOrderKey b)) pshareds
      some (s, (⟨d.word_id, w.shared_id, w.trad, w.simp, pshareds.map (fun p => p.id),
        d.class_id, c.name, d.id, d.shared_id, d.ext_def_id, d.definition⟩ :
          DefinitionEntry))
    | _, _, _ => none)
  let rows := sortStable
    (fun a b => rankKeyLe (sharedOrderKey a.1) (sharedOrderKey b.1)) rows
  rows.map (fun r => r.2)

/-- The word/pinyin/class state machine of `generate_txt_file`. -/
def generate_rows (db : Db) :
    List DefinitionEntry → Nat → List Nat → Nat → RenderState →
    Except DbToTxtError RenderState
  | [], _, _, _, rs => pure rs
  | e :: rest, last_word_id, last_pinyin, last_class, rs => do
    let (rs, last_word_id, last_pinyin, last_class) ←
      if e.word_id ≠ last_word_id then do
        let rs ← write_word_entry db rs e
        pure (rs, e.word_id, ([] : List Nat), 0)
      else pure (rs, last_word_id, last_pinyin, last_class)
    let (rs, last_pinyin) ←
      if e.pinyin_shared_ids ≠ last_pinyin then do
        let rs ← write_pinyin_entries db rs e.def_id e.pinyin_shared_ids
        pure (rs, e.pinyin_shared_ids)
      else pure (rs, last_pinyin)
    let (rs, last_class) ←
      if e.class_id ≠ last_class then
        pure (write_class_entry rs e.class_name, e.class_id)
      else pure (rs, last_class)
    let rs ← write_definition_entry db rs e
    generate_rows db rest last_word_id last_pinyin last_class rs

/-- `generate_txt_file` of `src/db_to_txt.rs`: header Shared items of the row
with surrogate id 1 at indent 0, then the definition-driven state machine. -/
def generate_txt_file (db : Db) : Except DbToTxtError (List Char) := do
  let rs : RenderState := ⟨[], []⟩
  let rs ← write_shared_items db rs 1 0
  let rs ← generate_rows db (definitionEntries db) 0 [] 0 rs
  pure rs.out

/-- The symmetric-pair join predicate of `src/db_edit.rs` and
`src/db_check.rs`: sources and destinations swapped, types equal, and the
definition anchors swapped with SQL semantics (NULL matches only NULL). -/
def mirrors (a b : ReferenceRow) : Bool :=
  a.word_id_src = b.word_id_dst && a.word_id_dst = b.word_id_src &&
  a.ref_type_id = b.ref_type_id &&
  a.definition_id_src = b.definition_id_dst &&
  a.definition_id_dst = b.definition_id_src

/-- Does the reference row join a symmetric `dict_ref_type` row? -/
def isSymRef (db : Db) (r : ReferenceRow) : Bool :=
  match db.refTypes.find? (fun t => t.id = r.ref_type_id) with
  | some t => t.is_symmetric
  | none => false

/-- The references selected by `stmt_missing_references`: symmetric and
without a mirror. -/
def missingSymmetric (db : Db) : List ReferenceRow :=
  db.refs.filter (fun r => isSymRef db r && !(db.refs.any (fun m => mirrors r m)))

/-- `MAX(shared.rank)` over the references matching a predicate (NULL when
none match). -/
def maxRankOfRefs (db : Db) (pred : ReferenceRow → Bool) : Option Nat :=
  (db.refs.filterMap (fun o =>
    if pred o then (db.shared.find? (fun s => s.id = o.shared_id)).map
      (fun s => s.rank)
    else none)).max?

/-- The rank of the Shared owned by a definition. -/
def sharedRankOfDef (db : Db) (did : Nat) : Option Nat :=
  (db.defs.find? (fun d => d.id = did)).bind (fun d =>
    (db.shared.find? (fun s => s.id = d.shared_id)).map (fun s => s.rank))

/-- The rank of the Shared owned by a word. -/
def sharedRankOfWord (db : Db) (wid : Nat) : Option Nat :=
  (db.words.find? (fun w => w.id = wid)).bind (fun w =>
    (db.shared.find? (fun s => s.id = w.shared_id)).map (fun s => s.rank))

/-- The placement CASE/COALESCE of `stmt_insert_at_shared_id` in
`src/db_edit.rs`: for a definition-anchored destination the maximum rank of
its outgoing references, else the definition rank; for a word destination the
maximum rank of its word-level outgoing references, else the word rank. -/
def insertAtRank (db : Db) (r : ReferenceRow) : Option Nat :=
  match r.definition_id_dst with
  | some _ =>
    (maxRankOfRefs db (fun o => o.word_id_src = r.word_id_dst &&
      o.definition_id_src = r.definition_id_dst)).orElse (fun _ =>
        r.definition_id_dst.bind (sharedRankOfDef db))
  | none =>
    (maxRankOfRefs db (fun o => o.word_id_src = r.word_id_dst &&
      o.definition_id_src = none)).orElse (fun _ =>
        sharedRankOfWord db r.word_id_dst)

/-- Insert one synthesized mirror: a new Shared at the placement rank with
`rank_relative = 1`, and the reference with source and destination swapped. A
NULL placement rank fails the row read in Rust and aborts the pass. -/
def add_missing_one (db : Db) (r : ReferenceRow) : Except Unit Db :=
  match insertAtRank db r with
  | none => .error ()
  | some rank =>
    let sid := db.shared.length + 1
    let newShared : SharedRow := ⟨sid, rank, some 1, none, none⟩
    let db := { db with shared := db.shared ++ [newShared] }
    let newRef : ReferenceRow := ⟨db.refs.length + 1, sid, r.ref_type_id,
      r.word_id_dst, r.definition_id_dst, r.word_id_src, r.definition_id_src⟩
    .ok { db with refs := db.refs ++ [newRef] }

/-- Loop of `add_missing_symmetric_references` over the missing list; the
placement query runs against the live database. -/
def add_missing_go : List ReferenceRow → Db → Except Unit Db
  | [], db => .ok db
  | r :: rest, db =>
    match add_missing_one db r with
    | .error e => .error e
    | .ok db1 => add_missing_go rest db1

/-- `add_missing_symmetric_references` of `src/db_edit.rs` (the missing set
is the cursor snapshot; rows inserted by the pass always have a mirror, so
they could not re-qualify anyway). -/
def add_missing_symmetric_references (db : Db) : Except Unit Db :=
  add_missing_go (missingSymmetric db) db

/-- The mirror pairs `(ref1, ref2)` with `ref1.id < ref2.id` over which the
tag/note synchronization statements of `src/db_edit.rs` join. -/
def symPairs (db : Db) : List (ReferenceRow × ReferenceRow) :=
  db.refs.flatMap (fun r1 =>
    (db.refs.filter (fun r2 => isSymRef db r1 && mirrors r1 r2 &&
      decide (r1.id < r2.id))).map (fun r2 => (r1, r2)))

/-- Tag ids attached to one Shared. -/
def tagIdsOf (db : Db) (sid : Nat) : List Nat :=
  (db.sharedTags.filter (fun p => p.for_shared_id = sid)).map (fun p => p.tag_id)

/-- Does the Shared carry the tag? -/
def hasTag (db : Db) (sid tid : Nat) : Bool :=
  db.sharedTags.any (fun p => p.for_shared_id = sid && p.tag_id = tid)

/-- Insert `dict_shared_tag` rows with `INSERT OR IGNORE` semantics. -/
def insertSharedTags (db : Db) (rows : List SharedTagRow) : Db :=
  rows.foldl (fun db row =>
    if db.sharedTags.any (fun p => p = row) then db
    else { db with sharedTags := db.sharedTags ++ [row] }) db

/-- The first tag statement: copy the missing tags of ref1 to ref2 for every
mirror pair. -/
def copyTagsLowToHigh (db : Db) : Db :=
  insertSharedTags db ((symPairs db).flatMap (fun pr =>
    (tagIdsOf db pr.1.shared_id).filterMap (fun t =>
      if hasTag db pr.2.shared_id t then none
      else some ⟨pr.2.shared_id, t⟩)))

/-- The second tag statement: copy the missing tags of ref2 to ref1, seeing
the rows the first statement inserted. -/
def copyTagsHighToLow (db : Db) : Db :=
  insertSharedTags db ((symPairs db).flatMap (fun pr =>
    (tagIdsOf db pr.2.shared_id).filterMap (fun t =>
      if hasTag db pr.1.shared_id t then none
      else some ⟨pr.1.shared_id, t⟩)))

/-- The `note_id` of a Shared row. -/
def noteOf (db : Db) (sid : Nat) : Option Nat :=
  (db.shared.find? (fun s => s.id = sid)).bind (fun s => s.note_id)

/-- Per-row update of the first note statement: a note-less Shared of some
ref1 whose mirror ref2 carries a note receives that note (scalar subquery:
first matching pair). -/
def noteUpdLowToHigh (db : Db) (s : SharedRow) : SharedRow :=
  if s.note_id = none then
    match (symPairs db).find? (fun pr => pr.1.shared_id = s.id &&
        (noteOf db pr.2.shared_id).isSome) with
    | some pr => { s with note_id := noteOf db pr.2.shared_id }
    | none => s
  else s

/-- The first note statement applied to every Shared row. -/
def copyNotesLowToHigh (db : Db) : Db :=
  { db with shared := db.shared.map (noteUpdLowToHigh db) }

/-- Per-row update of the second note statement: the symmetric copy onto
ref2 Shareds, seeing the first statement result. -/
def noteUpdHighToLow (db : Db) (s : SharedRow) : SharedRow :=
  if s.note_id = none then
    match (symPairs db).find? (fun pr => pr.2.shared_id = s.id &&
        (noteOf db pr.1.shared_id).isSome) with
    | some pr => { s with note_id := noteOf db pr.1.shared_id }
    | none => s
  else s

/-- The second note statement applied to every Shared row. -/
def copyNotesHighToLow (db : Db) : Db :=
  { db with shared := db.shared.map (noteUpdHighToLow db) }

/-- `add_missing_notes_and_tags_for_symmetric_references` of
`src/db_edit.rs`: the two tag statements then the two note statements, each
seeing the effects of the previous one. -/
def add_missing_notes_and_tags_for_symmetric_references (db : Db) : Db :=
  copyNotesHighToLow (copyNotesLowToHigh (copyTagsHighToLow (copyTagsLowToHigh db)))

/-- `format_word_def` of `src/common.rs`. -/
def format_word_def (trad simp : List Char) (ext : Option Nat) : List Char :=
  let w := if trad = simp then trad else trad ++ "／".toList ++ simp
  match ext with
  | some id => w ++ "#D".toList ++ natToChars id
  | none => w

/-- The conflict rows of `check_conflicting_notes_on_symmetric_references`:
mirror pairs (processed once via `ref1.id < ref2.id`) whose two sides carry
different non-null notes, joined with both words and the optional anchor
definitions of ref1. -/
def conflictingNoteErrors (db : Db) : List (List Char) :=
  ((symPairs db).filterMap (fun pr =>
    match noteOf db pr.1.shared_id, noteOf db pr.2.shared_id with
    | some n1, some n2 =>
      if n1 = n2 then none
      else
        match db.words.find? (fun w => w.id = pr.1.word_id_src),
            db.words.find? (fun w => w.id = pr.1.word_id_dst) with
        | some wa, some wb =>
          let extA := (pr.1.definition_id_src.bind (fun d =>
            db.defs.find? (fun dd => dd.id = d))).map (fun dd => dd.ext_def_id)
          let extB := (pr.1.definition_id_dst.bind (fun d =>
            db.defs.find? (fun dd => dd.id = d))).map (fun dd => dd.ext_def_id)
          some ("Validation Error: Different notes on symmetric references between ".toList
            ++ format_word_def wa.trad wa.simp extA ++ " and ".toList
            ++ format_word_def wb.trad wb.simp extB)
        | _, _ => none
    | _, _ => none))

/-- A Rust panic, here the `todo!()` macro. -/
inductive RustPanic where
  | todoUnimplemented
deriving DecidableEq, Repr

/-- `check_conflicting_notes_on_symmetric_references` of `src/db_check.rs`:
the function accumulates the conflict messages and then executes an
unconditional `todo!()` before its `Ok(errors)` line, so it always panics
instead of returning the list. -/
def check_conflicting_notes_on_symmetric_references (db : Db) :
    Except RustPanic (List (List Char)) :=
  let _errors := conflictingNoteErrors db
  .error .todoUnimplemented

/-- Loop of `finalize_note_ids`: renumber each selected note in rowid order
and point the Shared with surrogate id 1 at it. -/
def finalize_go : List NoteRow → Db → Nat → Db × Nat
  | [], db, base => (db, base)
  | n :: rest, db, base =>
    let base := base + 1
    let updN := fun (m : NoteRow) =>
      if m.id = n.id then { m with ext_note_id := base } else m
    let updS := fun (s : SharedRow) =>
      if s.id = 1 then { s with note_id := some n.id } else s
    finalize_go rest
      { db with notes := db.notes.map updN, shared := db.shared.map updS } base

/-- `finalize_note_ids` of `src/db_edit.rs`: starting from the maximum of the
external counter and the database maximum `ext_note_id` (an empty note table
fails the NULL read), renumber every note with `ext_note_id < 100`
consecutively, pointing the header Shared (surrogate id 1) at each in turn;
returns the last assigned id. -/
def finalize_note_ids (db : Db) (max_ext_note_id : Nat) : Except Unit (Db × Nat) :=
  match (db.notes.map (fun n => n.ext_note_id)).max? with
  | none => .error ()
  | some maxDb =>
    let base := max max_ext_note_id maxDb
    let toUpdate := db.notes.filter (fun n => n.ext_note_id < 100)
    .ok (finalize_go toUpdate db base)

/-- The Semantic Repair transaction as run by `main.rs`: synthesize missing
mirrors, then synchronize tags and notes. -/
def repairDb (db : Db) : Except Unit Db :=
  (add_missing_symmetric_references db).map
    add_missing_notes_and_tags_for_symmetric_references

/-- The full text-to-database-to-text pipeline on one input file: split into
physical lines (`BufRead::lines`), ingest, repair, render. -/
def text_to_db_to_text (t : List Char) : Except Unit (List Char) :=
  match repairDb (txt_to_db (rustLines t)).db with
  | .error _ => .error ()
  | .ok db =>
    match generate_txt_file db with
    | .ok out => .ok out
    | .error _ => .error ()

/-- A concrete valid input file in the renderer canonical form: a word with
an ASCII tag, distinct traditional and simplified forms joined by `／`, one
pronunciation shared by two definitions of different classes, and a tagged
definition. -/
def tGoodFile : List Char :=
  "W|w| 媽／妈\n P|| ma1\n  C n.\n   D1|| mother\n  C int.\n   D2|m| mom\n".toList

/-- A concrete valid input file that is not canonical: the word separator is
the ASCII `/` (accepted on input) and both forms are equal. -/
def tBadFile : List Char :=
  "W|| 一/一\n P|| yi1\n  C num.\n   D1|| one\n".toList

/-- A concrete valid canonical file with two words referencing each other
through a symmetric cross-reference type: the Semantic Repair pass finds
both mirrors present and changes nothing. -/
def tRefFile : List Char :=
  "W|| 甲\n X=|| 乙\n P|| jia3\n  C n.\n   D1|| first\nW|| 乙\n X=|| 甲\n P|| yi3\n  C n.\n   D2|| second\n".toList

/-- A concrete valid canonical file with a header comment (emitted at indent
0 from the Shared with surrogate id 1) and a note on the word. -/
def tNoteFile : List Char :=
  "# intro\nW|| 你好\n N5 greeting\n P|| ni3hao3\n  C int.\n   D1|| hello\n".toList

/-- The physical lines of scenario S1 (minimal word). -/
def s1PhysLines : List (List Char) :=
  ["W|| 你好".toList, " P|| ni3hao3".toList, "  C int.".toList,
    "   D1|| hello".toList]

/-- SQLite comparison of `rank_relative` values: NULL sorts before every
integer. -/
def optRelLt : Option Nat → Option Nat → Prop
  | none, some _ => True
  | some a, some b => a < b
  | _, none => False

/-- Strict order on `(rank, rank_relative)` pairs of Shared rows, NULL
first. -/
def sharedTupleLt (a b : SharedRow) : Prop :=
  a.rank < b.rank ∨ (a.rank = b.rank ∧ optRelLt a.rank_relative b.rank_relative)

/-- The rank invariant maintained by one ingest: the Shared ranks are exactly
`1, 2, ..., n` in insertion order, the counter equals the table length, and
`rank_relative` is NULL on every row. -/
def ranksOk (st : BuildState) : Prop :=
  st.db.shared.map SharedRow.rank = List.range' 1 st.db.shared.length ∧
  st.rank_counter = st.db.shared.length ∧
  ∀ r ∈ st.db.shared, r.rank_relative = none

/-- A symmetric mirror pair that is unambiguous in the database: `a` and `b`
are each other's only mirrors, reference rows own distinct Shareds, both
Shared rows exist, and the two sides do not carry two different notes (the
conflicting-notes case, which the repair pass deliberately leaves alone). -/
structure CleanPair (db0 : Db) (a b : ReferenceRow) : Prop where
  ha : a ∈ db0.refs
  hb : b ∈ db0.refs
  hlt : a.id < b.id
  hm : mirrors a b = true
  hsym : isSymRef db0 a = true
  uniqA : ∀ c ∈ db0.refs, mirrors a c = true → c = b
  uniqB : ∀ c ∈ db0.refs, mirrors b c = true → c = a
  sharedInj : ∀ r1 ∈ db0.refs, ∀ r2 ∈ db0.refs, r1.shared_id = r2.shared_id → r1 = r2
  rowA : ∃ s ∈ db0.shared, s.id = a.shared_id
  rowB : ∃ s ∈ db0.shared, s.id = b.shared_id
  noConflict : noteOf db0 a.shared_id = none ∨ noteOf db0 b.shared_id = none ∨
    noteOf db0 a.shared_id = noteOf db0 b.shared_id

/-- First index of a note with the given surrogate id. -/
def noteIdx : List NoteRow → Nat → Option Nat
  | [], _ => none
  | n :: rest, i => if i = n.id then some 0 else (noteIdx rest i).map (fun j => j + 1)

/-- The aggregate effect of the `finalize_note_ids` loop on one note row:
the j-th selected note (0-based) receives `base + j + 1`. -/
def renumberNote (l : List NoteRow) (base : Nat) (m : NoteRow) : NoteRow :=
  match noteIdx l m.id with
  | some j => { m with ext_note_id := base + j + 1 }
  | none => m

/-- The aggregate effect of the `finalize_note_ids` loop on one Shared row:
only the header row (surrogate id 1) is touched, its `note_id` set to the
given note surrogate id. -/
def headerUpd (nid : Nat) (s : SharedRow) : SharedRow :=
  if s.id = 1 then { s with note_id := some nid } else s

/-- A database with a clean symmetric pair: `甲` and `乙` reference each
other as synonym-equal, one side carrying a note and a tag, the other side
bare. -/
def syncDb : Db :=
  { Db.empty with
    shared := [⟨1, 1, none, none, none⟩, ⟨2, 2, none, none, none⟩,
      ⟨3, 3, none, some 1, none⟩, ⟨4, 4, none, none, none⟩],
    words := [⟨1, 1, "甲".toList, "甲".toList⟩, ⟨2, 2, "乙".toList, "乙".toList⟩],
    tags := [⟨1, "informal".toList, "register".toList, some "i".toList⟩],
    sharedTags := [⟨3, 1⟩],
    notes := [⟨1, "note a".toList, 5⟩],
    refTypes := [⟨1, "synonym-equal".toList, "=".toList, true⟩],
    refs := [⟨1, 3, 1, 1, none, 2, none⟩, ⟨2, 4, 1, 2, none, 1, none⟩] }

/-- A database exercising `finalize_note_ids`: a header Shared pointing at a
note with a small external id, and a second note already above the
threshold. -/
def finDb : Db :=
  { Db.empty with
    shared := [⟨1, 1, none, some 1, none⟩, ⟨2, 2, none, none, none⟩],
    notes := [⟨1, "header note".toList, 5⟩, ⟨2, "big".toList, 101⟩] }

/-- A database with a conflicting pair of symmetric references: `甲` and `乙`
reference each other as synonym-equal, each side carrying a different
note. -/
def conflictDb : Db :=
  { Db.empty with
    shared := [⟨1, 1, none, none, none⟩, ⟨2, 2, none, none, none⟩,
      ⟨3, 3, none, some 1, none⟩, ⟨4, 4, none, some 2, none⟩],
    words := [⟨1, 1, "甲".toList, "甲".toList⟩, ⟨2, 2, "乙".toList, "乙".toList⟩],
    notes := [⟨1, "note a".toList, 5⟩, ⟨2, "note b".toList, 6⟩],
    refTypes := [⟨1, "synonym-equal".toList, "=".toList, true⟩],
    refs := [⟨1, 3, 1, 1, none, 2, none⟩, ⟨2, 4, 1, 2, none, 1, none⟩] }

end Fmld

namespace Fmld

theorem replaceChar_of_not_mem {s : List Char} {n : Char} {r : List Char} :
    n ∉ s → replaceChar s n r = s := by
  induction s with
  | nil => intro _; rfl
  | cons c cs ih =>
    intro h
    have hc : ¬(c = n) := fun hcn => h (hcn ▸ List.mem_cons_self c cs)
    have hcs : n ∉ cs := fun hm => h (List.mem_cons_of_mem c hm)
    show (if c = n then r else [c]) ++ replaceChar cs n r = c :: cs
    rw [if_neg hc, ih hcs]
    rfl

theorem splitInclusiveGo_of_no_match {p : Char → Bool} {s : List Char}
    (hs : ∀ c ∈ s, p c = false) :
    ∀ acc : List Char, s ≠ [] ∨ acc ≠ [] →
      splitInclusiveGo p s acc = [acc.reverse ++ s] := by
  induction s with
  | nil =>
    intro acc hne
    have hacc : acc ≠ [] := hne.resolve_left (fun h => h rfl)
    simp [splitInclusiveGo, hacc]
  | cons c cs ih =>
    intro acc _
    have hc : p c = false := hs c (List.mem_cons_self c cs)
    have hcs : ∀ x ∈ cs, p x = false := fun x hx => hs x (List.mem_cons_of_mem c hx)
    have := ih hcs (c :: acc) (Or.inr (by simp))
    simp [splitInclusiveGo, hc, this]

theorem splitInclusive_of_no_match {p : Char → Bool} {s : List Char}
    (hne : s ≠ []) (hs : ∀ c ∈ s, p c = false) :
    splitInclusive p s = [s] := by
  simpa [splitInclusive] using splitInclusiveGo_of_no_match hs [] (Or.inl hne)

/-- C2 (amended): `pinyin_mark_from_num` never fails (it is a total function),
and an input with no tone-digit character anywhere, whose final character is
not an ASCII digit, and which contains no `v`/`V` (those are normalized to
`ü`/`Ü` even without a tone digit) is returned unchanged. -/
theorem c2_unrecognized_input_identity (s : List Char)
    (hdig : ∀ c ∈ s, pinyinSplitPat c = false)
    (hv : 'v' ∉ s) (hV : 'V' ∉ s)
    (hlast : ∀ c, s.getLast? = some c → toDigit10 c = none) :
    pinyin_mark_from_num s = s := by
  by_cases hs : s = []
  · subst hs; rfl
  · have hrep : replaceChar (replaceChar s 'v' "ü".toList) 'V' "Ü".toList = s := by
      rw [replaceChar_of_not_mem hv, replaceChar_of_not_mem hV]
    have hsyl : pinyin_syllable_mark_from_num s = s := by
      unfold pinyin_syllable_mark_from_num
      rw [hrep]
      cases hl : s.getLast? with
      | none => exact absurd (List.getLast?_eq_none_iff.mp hl) hs
      | some c => simp only [hl, hlast c hl]
    unfold pinyin_mark_from_num
    rw [splitInclusive_of_no_match hs hdig]
    simp [hsyl]

/-- Witness for C2: the concrete unrecognized input from the Rust test suite is
returned unchanged. -/
theorem c2_unrecognized_input_identity_witness :
    (∀ c ∈ "pinyin".toList, pinyinSplitPat c = false) ∧
      pinyin_mark_from_num "pinyin".toList = "pinyin".toList :=
  ⟨by decide,
    c2_unrecognized_input_identity "pinyin".toList (by decide) (by decide)
      (by decide) (by decide)⟩

/-- C2 counterexample: the single syllable `nv` has no tone digit, yet the
function rewrites it to `nü` instead of returning it unchanged, because the
`v` to `ü` normalization runs before the tone-digit check. -/
theorem c2_counterexample :
    pinyin_mark_from_num "nv".toList = "nü".toList ∧
      "nü".toList ≠ "nv".toList := by
  decide

/-- C1 (amended): the text-to-database-to-text round trip is not the
identity on every valid input file — the counterexample file ingests
without any error yet renders back differently — so the original claim is
false. Byte-for-byte round-trip identity is established here for three
concrete valid files, each a fixed point of the renderer: `tGoodFile`
(tagged word, distinct traditional/simplified forms joined by `／`, one
pronunciation shared by two definitions of different classes, tagged
definition), `tRefFile` (two words with mutual symmetric cross-references,
unchanged by the Semantic Repair pass) and `tNoteFile` (header comment at
indent 0 and a note line). -/
theorem c1_round_trip_identity_canonical :
    ((txt_to_db (rustLines tGoodFile)).errors = [] ∧
      text_to_db_to_text tGoodFile = .ok tGoodFile) ∧
    ((txt_to_db (rustLines tRefFile)).errors = [] ∧
      text_to_db_to_text tRefFile = .ok tRefFile) ∧
    ((txt_to_db (rustLines tNoteFile)).errors = [] ∧
      text_to_db_to_text tNoteFile = .ok tNoteFile) :=
  ⟨⟨rfl, rfl⟩, ⟨rfl, rfl⟩, ⟨rfl, rfl⟩⟩

/-- C1 counterexample: the file using the accepted ASCII `/` word separator
(with equal traditional and simplified forms) ingests without any error, yet
the round trip renders the canonical `W|| 一` line, so the output differs
from the input byte sequence. -/
theorem c1_counterexample :
    (txt_to_db (rustLines tBadFile)).errors = [] ∧
      text_to_db_to_text tBadFile =
        .ok "W|| 一\n P|| yi1\n  C num.\n   D1|| one\n".toList ∧
      "W|| 一\n P|| yi1\n  C num.\n   D1|| one\n".toList ≠ tBadFile :=
  ⟨rfl, rfl, by decide⟩

/-- C5 (amended): a physical line whose text after trimming leading whitespace
is shorter than two bytes (the condition is on UTF-8 byte length, not on the
count of non-whitespace characters) behaves exactly like an empty physical
line, interchangeably in any position: it produces no logical line of its
own, it emits (flushes) the buffered logical line when one exists — so a
following continuation-indented line starts a new logical line instead of
folding into the previous one (second and third conjunct) — and when no
logical line is buffered it stops the lexer and the remaining input is
discarded. It is NOT equivalent to removing the line. -/
theorem c5_short_line_like_empty :
    (∀ (xs ys : List (List Char)) (short : List Char),
      utf8Len (short.dropWhile rustIsWhitespace) < 2 →
      ∀ (cnt : Nat) (cur : Option LineInfo),
        lexGo (xs ++ short :: ys) cnt cur = lexGo (xs ++ [] :: ys) cnt cur) ∧
    lexPhysicalLines ["W|| ab".toList, " ".toList, "  cd".toList] =
      [⟨1, 1, 0, "W|| ab".toList⟩, ⟨3, 1, 2, "cd".toList⟩] ∧
    lexPhysicalLines ["W|| ab".toList, "  cd".toList] =
      [⟨1, 2, 0, "W|| ab\ncd".toList⟩] := by
  refine ⟨?_, by decide, by decide⟩
  intro xs ys short h
  induction xs with
  | nil =>
    intro cnt cur
    show lexGo (short :: ys) cnt cur = lexGo ([] :: ys) cnt cur
    unfold lexGo
    rw [if_pos h, if_pos (by decide : utf8Len (List.dropWhile rustIsWhitespace []) < 2)]
  | cons x xs ih =>
    intro cnt cur
    show lexGo (x :: (xs ++ short :: ys)) cnt cur =
      lexGo (x :: (xs ++ [] :: ys)) cnt cur
    unfold lexGo
    by_cases hx : utf8Len (x.dropWhile rustIsWhitespace) < 2
    · rw [if_pos hx, if_pos hx]
      cases cur with
      | none => rfl
      | some c => exact congrArg (c :: ·) (ih _ _)
    · rw [if_neg hx, if_neg hx]
      cases cur with
      | none => exact ih _ _
      | some c =>
        dsimp only
        by_cases hind :
            utf8Len x - utf8Len (x.dropWhile rustIsWhitespace) > c.indentation + 1
        · rw [if_pos hind, if_pos hind]
          exact ih _ _
        · rw [if_neg hind, if_neg hind]
          exact congrArg (c :: ·) (ih _ _)

/-- Witness for C5: a one-space physical line between a line and a deeper line
is interchangeable with an empty line. -/
theorem c5_short_line_like_empty_witness :
    utf8Len (" ".toList.dropWhile rustIsWhitespace) < 2 ∧
      lexGo (["W|| ab".toList] ++ " ".toList :: ["  cd".toList]) 0 none =
        lexGo (["W|| ab".toList] ++ [] :: ["  cd".toList]) 0 none :=
  ⟨by decide, c5_short_line_like_empty.1 _ _ _ (by decide) 0 none⟩

/-- C5 counterexample: an empty physical line at the start of the input makes
the lexer return `None` immediately, so the following well-formed line is
never lexed, contradicting the claim that the remaining lines are still lexed
and emitted as if the skipped line were absent. -/
theorem c5_counterexample :
    lexPhysicalLines ["".toList, "W|| ab".toList] = [] ∧
      lexPhysicalLines ["W|| ab".toList] = [⟨1, 1, 0, "W|| ab".toList⟩] := by
  decide

theorem ranksOk_init : ranksOk BuildState.init := by
  refine ⟨rfl, rfl, ?_⟩
  intro r h
  simp [BuildState.init, Db.empty] at h

theorem ranksOk_congr {st st' : BuildState} (hs : st'.db.shared = st.db.shared)
    (hc : st'.rank_counter = st.rank_counter) (h : ranksOk st) : ranksOk st' := by
  unfold ranksOk at h ⊢
  rw [hs, hc]
  exact h

theorem ranksOk_create_shared {st : BuildState} (h : ranksOk st) :
    ranksOk (create_shared_entry st).1 := by
  obtain ⟨h1, h2, h3⟩ := h
  unfold ranksOk create_shared_entry
  dsimp only
  refine ⟨?_, ?_, ?_⟩
  · rw [List.map_append, h1, List.length_append]
    simp [List.range'_concat, h2]
    try omega
  · rw [List.length_append, h2]
    rfl
  · intro r hr
    rcases List.mem_append.mp hr with hr | hr
    · exact h3 r hr
    · simp at hr
      rw [hr]

theorem ranksOk_map_shared {st : BuildState} (upd : SharedRow → SharedRow)
    (hrank : ∀ r, (upd r).rank = r.rank)
    (hrel : ∀ r, (upd r).rank_relative = r.rank_relative)
    (h : ranksOk st) :
    ranksOk { st with db := { st.db with shared := st.db.shared.map upd } } := by
  obtain ⟨h1, h2, h3⟩ := h
  refine ⟨?_, ?_, ?_⟩
  · show (st.db.shared.map upd).map SharedRow.rank =
      List.range' 1 (st.db.shared.map upd).length
    rw [List.map_map, List.length_map]
    have : SharedRow.rank ∘ upd = SharedRow.rank := funext hrank
    rw [this, h1]
  · show st.rank_counter = (st.db.shared.map upd).length
    rw [List.length_map]
    exact h2
  · intro r hr
    obtain ⟨r0, hr0, rfl⟩ := List.mem_map.mp hr
    rw [hrel r0]
    exact h3 r0 hr0

theorem ranksOk_add_note_to_entry {st : BuildState} (nid tid : Nat)
    (h : ranksOk st) : ranksOk (add_note_to_entry st nid tid).2 := by
  unfold add_note_to_entry
  by_cases hc : st.db.shared.any (fun s => s.id = tid)
  · simp only [hc, if_true]
    exact ranksOk_map_shared _ (fun r => by by_cases hr : r.id = tid <;> simp [hr])
      (fun r => by by_cases hr : r.id = tid <;> simp [hr]) h
  · simp only [hc, if_false]
    exact h

theorem ranksOk_add_comment_to_entry {st : BuildState} (cid tid : Nat)
    (h : ranksOk st) : ranksOk (add_comment_to_entry st cid tid).2 := by
  unfold add_comment_to_entry
  by_cases hc : st.db.shared.any (fun s => s.id = tid)
  · simp only [hc, if_true]
    exact ranksOk_map_shared _ (fun r => by by_cases hr : r.id = tid <;> simp [hr])
      (fun r => by by_cases hr : r.id = tid <;> simp [hr]) h
  · simp only [hc, if_false]
    exact h

theorem ranksOk_add_tag_for_entry {st : BuildState} (sid : Nat) (a : Option Char)
    (txt ty : List Char) (h : ranksOk st) :
    ranksOk (add_tag_for_entry st sid a txt ty).2 := by
  unfold add_tag_for_entry
  dsimp only
  repeat' split
  all_goals exact ranksOk_congr rfl rfl h

theorem ranksOk_add_tags_for_entry {st : BuildState} (sid : Nat) (entry : DictNode)
    (tags : Tags) (h : ranksOk st) :
    ranksOk (add_tags_for_entry st sid entry tags).2 := by
  induction tags generalizing st with
  | nil => exact h
  | cons t rest ih =>
    unfold add_tags_for_entry
    cases tag_to_txt entry t with
    | error e => exact h
    | ok v =>
      dsimp only
      cases hadd : add_tag_for_entry st sid v.1 v.2.1 v.2.2 with
      | mk res st1 =>
        have h1 : ranksOk st1 := by
          have := ranksOk_add_tag_for_entry sid v.1 v.2.1 v.2.2 h
          rw [hadd] at this
          exact this
        cases res with
        | error e => exact h1
        | ok _ => exact ih h1

theorem ranksOk_snd_add_tags {st : BuildState} {sid : Nat} {entry : DictNode}
    {tags : Tags} {res : Except TxtToDbError Unit} {st1 : BuildState}
    (hadd : add_tags_for_entry st sid entry tags = (res, st1))
    (h : ranksOk st) : ranksOk st1 := by
  have := ranksOk_add_tags_for_entry sid entry tags h
  rw [hadd] at this
  exact this

theorem ranksOk_create_word_entry {st : BuildState} (w : Word) (tags : Tags)
    (h : ranksOk st) : ranksOk (create_word_entry st w tags).2 := by
  unfold create_word_entry
  dsimp only
  have hsh := ranksOk_create_shared h
  split
  · exact hsh
  · have h2 := @ranksOk_congr _
      { (create_shared_entry st).1 with db :=
        { (create_shared_entry st).1.db with words :=
          (create_shared_entry st).1.db.words ++
            [⟨(create_shared_entry st).1.db.words.length + 1,
              (create_shared_entry st).2, w.trad, w.simp.getD w.trad⟩] } }
      rfl rfl hsh
    cases hadd : add_tags_for_entry _ _ _ tags with
    | mk res st1 =>
      have h3 := ranksOk_snd_add_tags hadd h2
      cases res with
      | error e => exact h3
      | ok _ => exact h3

theorem ranksOk_of_eq {ε α : Type} {f : (Except ε α) × BuildState}
    {res : Except ε α} {st1 : BuildState} (heq : f = (res, st1))
    (h : ranksOk f.2) : ranksOk st1 := by
  rw [heq] at h
  exact h

theorem ranksOk_create_pinyin_entry {st : BuildState} (p : List Char) (tags : Tags)
    (h : ranksOk st) : ranksOk (create_pinyin_entry st p tags).2 := by
  unfold create_pinyin_entry
  dsimp only
  have hsh := ranksOk_create_shared h
  split
  · apply ranksOk_congr _ _ hsh <;> first | rfl | (split <;> rfl)
  · cases hadd : add_tags_for_entry _ _ _ tags with
    | mk res st1 =>
      have h3 := ranksOk_snd_add_tags hadd (by
        apply ranksOk_congr _ _ hsh <;> first | rfl | (split <;> rfl))
      cases res with
      | error e => exact h3
      | ok _ => exact h3

theorem ranksOk_create_class_entry {st : BuildState} (name : List Char)
    (h : ranksOk st) : ranksOk (create_class_entry st name).2 := by
  unfold create_class_entry
  dsimp only
  repeat' split
  all_goals apply ranksOk_congr _ _ h <;> first | rfl | (split <;> rfl)

theorem ranksOk_create_definition_entry {st : BuildState} (wid : Nat)
    (dt : DefinitionTag) (cid : Nat) (h : ranksOk st) :
    ranksOk (create_definition_entry st wid dt cid).2 := by
  unfold create_definition_entry
  dsimp only
  have hsh := ranksOk_create_shared h
  split
  · exact hsh
  · cases hadd : add_tags_for_entry _ _ _ dt.tags with
    | mk res st1 =>
      have h3 := ranksOk_snd_add_tags hadd (ranksOk_congr rfl rfl hsh)
      cases res with
      | error e => exact h3
      | ok _ => exact h3

theorem ranksOk_create_pron_definition_entry {st : BuildState} (spid did : Nat)
    (h : ranksOk st) : ranksOk (create_pron_definition_entry st spid did).1 := by
  exact ranksOk_congr rfl rfl h

theorem ranksOk_create_cross_reference_entry {st : BuildState} (rt : Char)
    (ws : Nat) (ds : Option Nat) (wd : Word) (ed : Option Nat) (tags : Tags)
    (h : ranksOk st) :
    ranksOk (create_cross_reference_entry st rt ws ds wd ed tags).2 := by
  unfold create_cross_reference_entry
  dsimp only
  have hsh := ranksOk_create_shared h
  cases hadd : add_tags_for_entry _ _ _ tags with
  | mk res st1 =>
    have h3 := ranksOk_snd_add_tags hadd hsh
    cases res with
    | error e => exact h3
    | ok _ => exact ranksOk_congr rfl rfl h3

theorem ranksOk_create_note {st : BuildState} (ext : Nat) (txt : List Char)
    (h : ranksOk st) : ranksOk (create_note st ext txt).2 := by
  unfold create_note
  dsimp only
  split
  · exact h
  · exact ranksOk_congr rfl rfl h

theorem ranksOk_create_comment {st : BuildState} (txt : List Char)
    (h : ranksOk st) : ranksOk (create_comment st txt).1 := by
  exact ranksOk_congr rfl rfl h

theorem ranksOk_add_word_line_words {tags : Tags} {ws : List Word} :
    ∀ {st : BuildState} {items : List DictNode}, ranksOk st →
      ranksOk (add_word_line_words st tags items ws).2 := by
  induction ws with
  | nil => intro st items h; exact h
  | cons w ws ih =>
    intro st items h
    unfold add_word_line_words
    cases hc : create_word_entry st w tags with
    | mk res st1 =>
      have h1 : ranksOk st1 := by
        have := ranksOk_create_word_entry w tags h
        rw [hc] at this
        exact this
      cases res with
      | error e => exact h1
      | ok node => exact ih h1

theorem ranksOk_add_word_line_groups {gs : List WordTagGroup} :
    ∀ {st : BuildState} {items : List DictNode}, ranksOk st →
      ranksOk (add_word_line_groups st items gs).2 := by
  induction gs with
  | nil => intro st items h; exact h
  | cons g gs ih =>
    intro st items h
    unfold add_word_line_groups
    cases hc : add_word_line_words st g.tags items g.words with
    | mk res st1 =>
      have h1 : ranksOk st1 := by
        have := @ranksOk_add_word_line_words g.tags g.words st items h
        rw [hc] at this
        exact this
      cases res with
      | error e => exact h1
      | ok items1 => exact ih h1

theorem ranksOk_add_comment_targets {cid : Nat} {nodes : List DictNode} :
    ∀ {st : BuildState} {n : Nat}, ranksOk st →
      ranksOk (add_comment_targets st cid n nodes).2 := by
  induction nodes with
  | nil => intro st n h; exact h
  | cons node nodes ih =>
    intro st n h
    unfold add_comment_targets
    cases get_shared_id_for_dict_node node with
    | error e => exact h
    | ok sid =>
      dsimp only
      cases hc : add_comment_to_entry st cid sid with
      | mk res st1 =>
        have h1 : ranksOk st1 := by
          have := ranksOk_add_comment_to_entry cid sid h
          rw [hc] at this
          exact this
        cases res with
        | error e => exact h1
        | ok k => exact ih h1

theorem ranksOk_add_comment_line_to_db {st : BuildState} (c : List Char)
    (h : ranksOk st) : ranksOk (add_comment_line_to_db st c).2 := by
  unfold add_comment_line_to_db
  dsimp only
  have hcc : ranksOk (create_comment st c).1 := ranksOk_create_comment c h
  split
  · split
    · split
      next e st1 heq =>
        exact ranksOk_of_eq heq (ranksOk_add_comment_to_entry _ _
          (ranksOk_create_shared hcc))
      next v st1 heq =>
        exact ranksOk_of_eq heq (ranksOk_add_comment_to_entry _ _
          (ranksOk_create_shared hcc))
    · exact hcc
  · split
    next e st1 heq =>
      exact ranksOk_of_eq heq (@ranksOk_add_comment_targets
        (create_comment st c).2
        ((create_comment st c).1.line_stack.getLast?.getD []) _ 0 hcc)
    next n st1 heq =>
      have h1 : ranksOk st1 :=
        ranksOk_of_eq heq (@ranksOk_add_comment_targets
          (create_comment st c).2
          ((create_comment st c).1.line_stack.getLast?.getD []) _ 0 hcc)
      split <;> exact h1

theorem ranksOk_add_note_targets {note : Note} {nid : Option Nat}
    {nodes : List DictNode} :
    ∀ {st : BuildState} {n : Nat}, ranksOk st →
      ranksOk (add_note_targets st note nid n nodes).2 := by
  induction nodes with
  | nil => intro st n h; exact h
  | cons node nodes ih =>
    intro st n h
    unfold add_note_targets
    cases get_shared_id_for_dict_node node with
    | error e => exact h
    | ok sid =>
      dsimp only
      split
      · exact ih (ranksOk_congr rfl rfl h)
      · cases hc : add_note_to_entry st (nid.getD 0) sid with
        | mk res st1 =>
          have h1 : ranksOk st1 := by
            have := ranksOk_add_note_to_entry (nid.getD 0) sid h
            rw [hc] at this
            exact this
          cases res with
          | error e => exact h1
          | ok k => exact ih h1

theorem ranksOk_add_note_line_to_db {st : BuildState} (note : Note)
    (h : ranksOk st) : ranksOk (add_note_line_to_db st note).2 := by
  unfold add_note_line_to_db
  dsimp only
  have hcreated : ranksOk
      (if !note.is_link then
        match create_note st note.id note.note with
        | (.error e, st1) => ((.error e : Except TxtToDbError (Option Nat)), st1)
        | (.ok id, st1) => (.ok (some id), st1)
      else (.ok none, st)).2 := by
    split
    · split
      next e st1 heq => exact ranksOk_of_eq heq (ranksOk_create_note _ _ h)
      next v st1 heq => exact ranksOk_of_eq heq (ranksOk_create_note _ _ h)
    · exact h
  split
  next e st1 heq =>
    exact ranksOk_of_eq heq hcreated
  next nid st1 heq =>
    have h1 : ranksOk st1 := ranksOk_of_eq heq hcreated
    split
    next e2 st2 heq2 =>
      exact ranksOk_of_eq heq2 (@ranksOk_add_note_targets note
        nid (st1.line_stack.getLast?.getD []) _ 0 h1)
    next n st2 heq2 =>
      have h2 : ranksOk st2 :=
        ranksOk_of_eq heq2 (@ranksOk_add_note_targets note
          nid (st1.line_stack.getLast?.getD []) _ 0 h1)
      split <;> exact h2

theorem ranksOk_add_xref_refs {rt : Char} {ws : Nat} {ds : Option Nat}
    {tags : Tags} {rs : List Reference} :
    ∀ {st : BuildState} {items : List DictNode}, ranksOk st →
      ranksOk (add_xref_refs st rt ws ds tags items rs).2 := by
  induction rs with
  | nil => intro st items h; exact h
  | cons r rs ih =>
    intro st items h
    unfold add_xref_refs
    cases hc : create_cross_reference_entry st rt ws ds r.target_word
        (r.target_id.map Prod.snd) tags with
    | mk res st1 =>
      have h1 : ranksOk st1 := by
        have := ranksOk_create_cross_reference_entry rt ws ds r.target_word
          (r.target_id.map Prod.snd) tags h
        rw [hc] at this
        exact this
      cases res with
      | error e => exact h1
      | ok node => exact ih h1

theorem ranksOk_add_xref_groups {ws : Nat} {ds : Option Nat}
    {gs : List ReferenceTagGroup} :
    ∀ {st : BuildState} {items : List DictNode}, ranksOk st →
      ranksOk (add_xref_groups st ws ds items gs).2 := by
  induction gs with
  | nil => intro st items h; exact h
  | cons g gs ih =>
    intro st items h
    unfold add_xref_groups
    cases hc : add_xref_refs st g.ref_type ws ds g.tags items g.references with
    | mk res st1 =>
      have h1 : ranksOk st1 := by
        have := @ranksOk_add_xref_refs g.ref_type ws ds g.tags g.references
          st items h
        rw [hc] at this
        exact this
      cases res with
      | error e => exact h1
      | ok items1 => exact ih h1

theorem ranksOk_add_cross_reference_line_to_db {st : BuildState}
    (groups : List ReferenceTagGroup) (h : ranksOk st) :
    ranksOk (add_cross_reference_line_to_db st groups).2 := by
  unfold add_cross_reference_line_to_db
  split
  · exact @ranksOk_add_xref_groups _ _ groups _ _ h
  · exact h

theorem ranksOk_add_def_pron_links {did : Nat} {nodes : List DictNode} :
    ∀ {st : BuildState}, ranksOk st →
      ranksOk (add_def_pron_links st did nodes).2 := by
  induction nodes with
  | nil => intro st h; exact h
  | cons node nodes ih =>
    intro st h
    unfold add_def_pron_links
    cases node with
    | pinyin s spid => exact ih (ranksOk_congr rfl rfl h)
    | word _ _ => exact h
    | cls _ => exact h
    | definition _ _ _ => exact h
    | crossReference _ => exact h

theorem ranksOk_add_definition_line_to_db {st : BuildState} (dt : DefinitionTag)
    (h : ranksOk st) : ranksOk (add_definition_line_to_db st dt).2 := by
  unfold add_definition_line_to_db
  split
  · split
    · split
      next e st1 heq =>
        exact ranksOk_of_eq heq (ranksOk_create_definition_entry _ dt _ h)
      next node st1 heq =>
        have h1 : ranksOk st1 :=
          ranksOk_of_eq heq (ranksOk_create_definition_entry _ dt _ h)
        split
        · split
          next e2 st2 heq2 =>
            exact ranksOk_of_eq heq2 (@ranksOk_add_def_pron_links _
              ((st1.line_stack.get? 1).getD []) _ h1)
          next v st2 heq2 =>
            exact ranksOk_of_eq heq2 (@ranksOk_add_def_pron_links _
              ((st1.line_stack.get? 1).getD []) _ h1)
        · exact h1
    · exact h
  · exact h

theorem ranksOk_add_pinyin_line_pinyins {tags : Tags} {ps : List (List Char)} :
    ∀ {st : BuildState} {items : List DictNode}, ranksOk st →
      ranksOk (add_pinyin_line_pinyins st tags items ps).2 := by
  induction ps with
  | nil => intro st items h; exact h
  | cons p ps ih =>
    intro st items h
    unfold add_pinyin_line_pinyins
    cases hc : create_pinyin_entry st p tags with
    | mk res st1 =>
      have h1 : ranksOk st1 := by
        have := ranksOk_create_pinyin_entry p tags h
        rw [hc] at this
        exact this
      cases res with
      | error e => exact h1
      | ok node =>
        dsimp only
        split
        · exact ih (ranksOk_congr rfl rfl h1)
        · exact ih h1

theorem ranksOk_add_pinyin_line_groups {gs : List PinyinTagGroup} :
    ∀ {st : BuildState} {items : List DictNode}, ranksOk st →
      ranksOk (add_pinyin_line_groups st items gs).2 := by
  induction gs with
  | nil => intro st items h; exact h
  | cons g gs ih =>
    intro st items h
    unfold add_pinyin_line_groups
    cases hc : add_pinyin_line_pinyins st g.tags items g.pinyins with
    | mk res st1 =>
      have h1 : ranksOk st1 := by
        have := @ranksOk_add_pinyin_line_pinyins g.tags g.pinyins st items h
        rw [hc] at this
        exact this
      cases res with
      | error e => exact h1
      | ok items1 => exact ih h1

theorem ranksOk_add_line_to_db {st : BuildState} (li : LineInfo) (dl : DictLine)
    (h : ranksOk st) : ranksOk (add_line_to_db st li dl).2 := by
  unfold add_line_to_db
  dsimp only
  have htr : ranksOk { st with line_stack := st.line_stack.take li.indentation } :=
    ranksOk_congr rfl rfl h
  cases dl with
  | word groups =>
    dsimp only
    have base : ranksOk (add_word_line_to_db
        { st with line_stack := st.line_stack.take li.indentation } groups).2 :=
      @ranksOk_add_word_line_groups groups _ [] htr
    split
    next items st1 heq =>
      have h1 : ranksOk st1 := ranksOk_of_eq heq base
      exact ranksOk_congr rfl rfl h1
    next e st1 heq =>
      have h1 : ranksOk st1 := ranksOk_of_eq heq base
      exact ranksOk_congr rfl rfl h1
  | pinyin groups =>
    dsimp only
    have base : ranksOk (add_pinyin_line_to_db
        { st with line_stack := st.line_stack.take li.indentation } groups).2 :=
      @ranksOk_add_pinyin_line_groups groups _ [] htr
    split
    next items st1 heq =>
      have h1 : ranksOk st1 := ranksOk_of_eq heq base
      exact ranksOk_congr rfl rfl h1
    next e st1 heq =>
      have h1 : ranksOk st1 := ranksOk_of_eq heq base
      exact ranksOk_congr rfl rfl h1
  | cls name =>
    dsimp only
    have base := ranksOk_create_class_entry name htr
    split
    next items st1 heq =>
      have h1 : ranksOk st1 := ranksOk_of_eq heq base
      exact ranksOk_congr rfl rfl h1
    next e st1 heq =>
      have h1 : ranksOk st1 := ranksOk_of_eq heq base
      exact ranksOk_congr rfl rfl h1
  | definition dt =>
    dsimp only
    have base := ranksOk_add_definition_line_to_db dt htr
    split
    next items st1 heq =>
      have h1 : ranksOk st1 := ranksOk_of_eq heq base
      exact ranksOk_congr rfl rfl h1
    next e st1 heq =>
      have h1 : ranksOk st1 := ranksOk_of_eq heq base
      exact ranksOk_congr rfl rfl h1
  | crossReference groups =>
    dsimp only
    have base := ranksOk_add_cross_reference_line_to_db groups htr
    split
    next items st1 heq =>
      have h1 : ranksOk st1 := ranksOk_of_eq heq base
      exact ranksOk_congr rfl rfl h1
    next e st1 heq =>
      have h1 : ranksOk st1 := ranksOk_of_eq heq base
      exact ranksOk_congr rfl rfl h1
  | note n =>
    dsimp only
    have base := ranksOk_add_note_line_to_db n htr
    split
    next items st1 heq =>
      have h1 : ranksOk st1 := ranksOk_of_eq heq base
      exact ranksOk_congr rfl rfl h1
    next e st1 heq =>
      have h1 : ranksOk st1 := ranksOk_of_eq heq base
      exact ranksOk_congr rfl rfl h1
  | comment c =>
    dsimp only
    have base := ranksOk_add_comment_line_to_db c htr
    split
    next items st1 heq =>
      have h1 : ranksOk st1 := ranksOk_of_eq heq base
      exact ranksOk_congr rfl rfl h1
    next e st1 heq =>
      have h1 : ranksOk st1 := ranksOk_of_eq heq base
      exact ranksOk_congr rfl rfl h1

theorem ranksOk_txt_to_db_loop {pls : List ParsedLine} :
    ∀ {st : BuildState} {cw : List Char} {cwe : Bool}, ranksOk st →
      ranksOk (txt_to_db_loop st cw cwe pls) := by
  induction pls with
  | nil => intro st cw cwe h; exact h
  | cons pl rest ih =>
    intro st cw cwe h
    unfold txt_to_db_loop
    cases pl.parsed_line with
    | error e => exact ih (ranksOk_congr rfl rfl h)
    | ok parsed =>
      dsimp only
      split
      · exact ih h
      · cases hc : add_line_to_db st pl.line parsed with
        | mk flags st1 =>
          have h1 : ranksOk st1 := by
            have := ranksOk_add_line_to_db pl.line parsed h
            rw [hc] at this
            exact this
          dsimp only
          split <;> exact ih (ranksOk_congr rfl rfl h1)

theorem ranksOk_complete_xref_one {st : BuildState} (r : CrossReferenceEntry)
    (h : ranksOk st) : ranksOk (complete_xref_one st r) := by
  unfold complete_xref_one
  dsimp only
  repeat' split
  all_goals apply ranksOk_congr _ _ h <;> first | rfl | (split <;> rfl)

theorem ranksOk_complete_cross_reference_entries {st : BuildState}
    (h : ranksOk st) : ranksOk (complete_cross_reference_entries st) := by
  unfold complete_cross_reference_entries
  dsimp only
  have start : ranksOk { st with cross_references := [] } :=
    ranksOk_congr rfl rfl h
  generalize { st with cross_references := [] } = st0 at start ⊢
  induction st.cross_references generalizing st0 with
  | nil => exact start
  | cons r rest ih => exact ih _ (ranksOk_complete_xref_one r start)

theorem ranksOk_complete_id_one {st : BuildState} (r : NoteReferenceEntry)
    (h : ranksOk st) : ranksOk (complete_id_one st r) := by
  unfold complete_id_one
  split
  · exact ranksOk_congr rfl rfl h
  · exact ranksOk_add_note_to_entry _ _ h

theorem ranksOk_complete_id_reference_entries {st : BuildState}
    (h : ranksOk st) : ranksOk (complete_id_reference_entries st) := by
  unfold complete_id_reference_entries
  dsimp only
  have start : ranksOk { st with note_references := [] } :=
    ranksOk_congr rfl rfl h
  generalize { st with note_references := [] } = st0 at start ⊢
  induction st.note_references generalizing st0 with
  | nil => exact start
  | cons r rest ih => exact ih _ (ranksOk_complete_id_one r start)

theorem ranksOk_txt_to_db (physLines : List (List Char)) :
    ranksOk (txt_to_db physLines) := by
  unfold txt_to_db
  exact ranksOk_complete_id_reference_entries
    (ranksOk_complete_cross_reference_entries
      (ranksOk_txt_to_db_loop ranksOk_init))

theorem mirrors_comm {a b : ReferenceRow} (h : mirrors a b = true) :
    mirrors b a = true := by
  simp only [mirrors, Bool.and_eq_true, decide_eq_true_eq] at h ⊢
  obtain ⟨⟨⟨⟨h1, h2⟩, h3⟩, h4⟩, h5⟩ := h
  exact ⟨⟨⟨⟨h2.symm, h1.symm⟩, h3.symm⟩, h5.symm⟩, h4.symm⟩

theorem mirrors_mk {r : ReferenceRow} (i s : Nat) :
    mirrors r ⟨i, s, r.ref_type_id, r.word_id_dst, r.definition_id_dst,
      r.word_id_src, r.definition_id_src⟩ = true := by
  simp [mirrors]

theorem insertSharedTags_fields (db : Db) (rows : List SharedTagRow) :
    (insertSharedTags db rows).refs = db.refs ∧
    (insertSharedTags db rows).refTypes = db.refTypes ∧
    (insertSharedTags db rows).shared = db.shared := by
  induction rows generalizing db with
  | nil => exact ⟨rfl, rfl, rfl⟩
  | cons row rest ih =>
    unfold insertSharedTags at ih ⊢
    dsimp only [List.foldl_cons]
    split
    · exact ih db
    · exact ih _

theorem hasTag_iff_mem (db : Db) (s t : Nat) :
    hasTag db s t = true ↔ (⟨s, t⟩ : SharedTagRow) ∈ db.sharedTags := by
  unfold hasTag
  rw [List.any_eq_true]
  constructor
  · rintro ⟨p, hp, hpe⟩
    simp only [Bool.and_eq_true, decide_eq_true_eq] at hpe
    cases p with
    | mk a b =>
      cases hpe.1
      cases hpe.2
      exact hp
  · intro h
    exact ⟨⟨s, t⟩, h, by simp⟩

theorem mem_insertSharedTags (db : Db) (rows : List SharedTagRow)
    (q : SharedTagRow) :
    q ∈ (insertSharedTags db rows).sharedTags ↔
      q ∈ db.sharedTags ∨ q ∈ rows := by
  induction rows generalizing db with
  | nil => simp [insertSharedTags]
  | cons row rest ih =>
    unfold insertSharedTags at ih ⊢
    dsimp only [List.foldl_cons]
    split
    next hpresent =>
      rw [ih db]
      have hrow : row ∈ db.sharedTags := by
        rw [List.any_eq_true] at hpresent
        obtain ⟨p, hp, hpe⟩ := hpresent
        rw [decide_eq_true_eq] at hpe
        rw [← hpe]
        exact hp
      constructor
      · rintro (h | h)
        · exact Or.inl h
        · exact Or.inr (List.mem_cons_of_mem row h)
      · rintro (h | h)
        · exact Or.inl h
        · rcases List.mem_cons.mp h with h | h
          · exact Or.inl (h ▸ hrow)
          · exact Or.inr h
    next habsent =>
      rw [ih _]
      dsimp only
      rw [List.mem_append, List.mem_singleton]
      constructor
      · rintro ((h | h) | h)
        · exact Or.inl h
        · exact Or.inr (List.mem_cons.mpr (Or.inl h))
        · exact Or.inr (List.mem_cons_of_mem row h)
      · rintro (h | h)
        · exact Or.inl (Or.inl h)
        · rcases List.mem_cons.mp h with h | h
          · exact Or.inl (Or.inr h)
          · exact Or.inr h

theorem hasTag_insertSharedTags (db : Db) (rows : List SharedTagRow) (s t : Nat) :
    hasTag (insertSharedTags db rows) s t = true ↔
      hasTag db s t = true ∨ (⟨s, t⟩ : SharedTagRow) ∈ rows := by
  rw [hasTag_iff_mem, hasTag_iff_mem, mem_insertSharedTags]

theorem tagIdsOf_mem (db : Db) (s t : Nat) :
    t ∈ tagIdsOf db s ↔ hasTag db s t = true := by
  unfold tagIdsOf hasTag
  rw [List.mem_map, List.any_eq_true]
  constructor
  · rintro ⟨p, hp, rfl⟩
    rw [List.mem_filter] at hp
    exact ⟨p, hp.1, by simp [of_decide_eq_true hp.2]⟩
  · rintro ⟨p, hp, hpe⟩
    simp only [Bool.and_eq_true, decide_eq_true_eq] at hpe
    exact ⟨p, List.mem_filter.mpr ⟨hp, by simp [hpe.1]⟩, hpe.2⟩

theorem isSymRef_congr {db1 db2 : Db} (hrt : db1.refTypes = db2.refTypes) :
    isSymRef db1 = isSymRef db2 := by
  funext r
  unfold isSymRef
  rw [hrt]

theorem symPairs_congr {db1 db2 : Db} (hr : db1.refs = db2.refs)
    (hrt : db1.refTypes = db2.refTypes) : symPairs db1 = symPairs db2 := by
  unfold symPairs
  rw [hr, isSymRef_congr hrt]

theorem symPairs_mem {db : Db} {pr : ReferenceRow × ReferenceRow}
    (h : pr ∈ symPairs db) :
    pr.1 ∈ db.refs ∧ pr.2 ∈ db.refs ∧ isSymRef db pr.1 = true ∧
      mirrors pr.1 pr.2 = true ∧ pr.1.id < pr.2.id := by
  unfold symPairs at h
  rw [List.mem_flatMap] at h
  obtain ⟨r1, hr1, h⟩ := h
  rw [List.mem_map] at h
  obtain ⟨r2, hr2, rfl⟩ := h
  rw [List.mem_filter] at hr2
  have hcond := hr2.2
  simp only [Bool.and_eq_true, decide_eq_true_eq] at hcond
  exact ⟨hr1, hr2.1, hcond.1.1, hcond.1.2, hcond.2⟩

theorem symPairs_mem_intro {db : Db} {a b : ReferenceRow} (ha : a ∈ db.refs)
    (hb : b ∈ db.refs) (hsym : isSymRef db a = true)
    (hm : mirrors a b = true) (hlt : a.id < b.id) : (a, b) ∈ symPairs db := by
  unfold symPairs
  rw [List.mem_flatMap]
  refine ⟨a, ha, ?_⟩
  rw [List.mem_map]
  refine ⟨b, ?_, rfl⟩
  rw [List.mem_filter]
  exact ⟨hb, by simp [hsym, hm, hlt]⟩

theorem find?_map_id_note {l : List SharedRow} {upd : SharedRow → SharedRow}
    (hid : ∀ r, (upd r).id = r.id) (sid : Nat) :
    (l.map upd).find? (fun s => s.id = sid) =
      (l.find? (fun s => s.id = sid)).map upd := by
  induction l with
  | nil => rfl
  | cons x xs ih =>
    simp only [List.map_cons, List.find?]
    rw [hid x]
    by_cases hx : x.id = sid
    · simp [hx]
    · simp only [hx, decide_False]
      exact ih

/-- C7 (amended): during one ingest every newly created Shared row gets rank
equal to the previous rank plus one (the counter starts at 1), so two rows
created in source order satisfy the strict `(rank, rank_relative)` order
(with SQLite NULL-first comparison); but `rank_relative` is left NULL (the
insert omits the column and the schema has no default), not 0. -/
theorem c7_rank_allocation (physLines : List (List Char)) :
    ((txt_to_db physLines).db.shared.map SharedRow.rank =
      List.range' 1 (txt_to_db physLines).db.shared.length) ∧
    (∀ r ∈ (txt_to_db physLines).db.shared, r.rank_relative = none) ∧
    (txt_to_db physLines).db.shared.Pairwise sharedTupleLt := by
  obtain ⟨h1, _h2, h3⟩ := ranksOk_txt_to_db physLines
  refine ⟨h1, h3, ?_⟩
  have hp : ((txt_to_db physLines).db.shared.map SharedRow.rank).Pairwise (· < ·) := by
    rw [h1]
    exact List.pairwise_lt_range' 1 _
  exact (List.pairwise_map.mp hp).imp (fun h => Or.inl h)

/-- Witness for C7: on the S1 scenario the three Shared rows are strictly
ordered and the first row (rank 1) has NULL `rank_relative`. -/
theorem c7_rank_allocation_witness :
    (txt_to_db s1PhysLines).db.shared.Pairwise sharedTupleLt ∧
      (⟨1, 1, none, none, none⟩ : SharedRow) ∈ (txt_to_db s1PhysLines).db.shared ∧
      (⟨1, 1, none, none, none⟩ : SharedRow).rank_relative = none :=
  ⟨(c7_rank_allocation s1PhysLines).2.2, by decide,
    (c7_rank_allocation s1PhysLines).2.1 _ (by decide)⟩

/-- C7 counterexample: ingesting the S1 scenario produces Shared rows whose
`rank_relative` column is NULL on every row, not the claimed 0. -/
theorem c7_counterexample :
    ((txt_to_db s1PhysLines).db.shared.map (fun r => r.rank_relative)) =
        [none, none, none] ∧
      [(none : Option Nat), none, none] ≠ [some 0, some 0, some 0] :=
  ⟨rfl, by decide⟩

/-- C6 (amended): the claimed record-error-and-insert-nothing behaviour
holds only for `D` lines — a `D` line whose truncated parent stack does not
hold a Word as the first node of the outermost frame, or does not hold a
Class as the first node of the depth-2 frame, fails with
`NoUsableParentNode` and changes nothing. The parent/child table is not
enforced uniformly elsewhere: an `X` line whose stack does not hold a Word
is silently ignored (`Ok(vec![])`, no rows, no error); a lone `P` or `C`
line is inserted with no parent check and no error; and a lone non-link `N`
line, or a `#` line after the header, records the error only after the
note/comment row has already been inserted. -/
theorem c6_unusable_parent_behaviour (st : BuildState) :
    (∀ dt : DefinitionTag,
      ((∀ s w, st.line_stack.head?.bind List.head? ≠ some (DictNode.word s w)) ∨
        (∀ c, (st.line_stack.get? 2).bind List.head? ≠ some (DictNode.cls c))) →
      add_definition_line_to_db st dt = (.error .noUsableParentNode, st)) ∧
    (∀ groups : List ReferenceTagGroup,
      (∀ s w, st.line_stack.head?.bind List.head? ≠ some (DictNode.word s w)) →
      add_cross_reference_line_to_db st groups = (.ok [], st)) ∧
    ((txt_to_db ["P|| ma1".toList]).errors = [] ∧
      (txt_to_db ["P|| ma1".toList]).db.prons ≠ []) ∧
    ((txt_to_db ["C n.".toList]).errors = [] ∧
      (txt_to_db ["C n.".toList]).db.classes ≠ []) ∧
    ((txt_to_db ["N5 note".toList]).errors ≠ [] ∧
      (txt_to_db ["N5 note".toList]).db.notes ≠ []) ∧
    ((txt_to_db ["W|| 好".toList, "# c".toList]).errors ≠ [] ∧
      (txt_to_db ["W|| 好".toList, "# c".toList]).db.comments ≠ []) := by
  refine ⟨?_, ?_, by decide, by decide, by decide, by decide⟩
  · intro dt h
    unfold add_definition_line_to_db
    cases hh : st.line_stack.head?.bind List.head? with
    | none => rfl
    | some node =>
      cases node with
      | word s w =>
        cases h with
        | inl h => exact absurd hh (h s w)
        | inr h =>
          cases hh2 : (st.line_stack.get? 2).bind List.head? with
          | none => rfl
          | some node2 =>
            cases node2 with
            | cls c => exact absurd hh2 (h c)
            | word _ _ => rfl
            | pinyin _ _ => rfl
            | definition _ _ _ => rfl
            | crossReference _ => rfl
      | pinyin _ _ => rfl
      | cls _ => rfl
      | definition _ _ _ => rfl
      | crossReference _ => rfl
  · intro groups h
    unfold add_cross_reference_line_to_db
    cases hh : st.line_stack.head?.bind List.head? with
    | none => rfl
    | some node =>
      cases node with
      | word s w => exact absurd hh (h s w)
      | pinyin _ _ => rfl
      | cls _ => rfl
      | definition _ _ _ => rfl
      | crossReference _ => rfl

/-- Witness for C6: on the initial (empty-stack) builder state a `D` line
fails with `NoUsableParentNode` while an `X` line is silently accepted with
no nodes. -/
theorem c6_unusable_parent_behaviour_witness :
    add_definition_line_to_db BuildState.init ⟨[], 1, "x".toList⟩ =
        (.error .noUsableParentNode, BuildState.init) ∧
      add_cross_reference_line_to_db BuildState.init [] = (.ok [], BuildState.init) :=
  ⟨(c6_unusable_parent_behaviour BuildState.init).1 ⟨[], 1, "x".toList⟩
      (Or.inl (by intro s w h; simp [BuildState.init] at h)),
    (c6_unusable_parent_behaviour BuildState.init).2.1 []
      (by intro s w h; simp [BuildState.init] at h)⟩

/-- C6 counterexample: the file consisting of the single line `X=|| 好` (an
`X` line with no Word parent) ingests with an EMPTY error list and no
reference rows, while the claim requires a recorded `NoUsableParentNode`
error for that line. -/
theorem c6_counterexample :
    (txt_to_db ["X=|| 好".toList]).errors = [] ∧
      (txt_to_db ["X=|| 好".toList]).db.refs = [] ∧
      (txt_to_db ["X=|| 好".toList]).db.shared = [] :=
  ⟨rfl, rfl, rfl⟩

/-- C4 (amended): the registry copy in `rust/src/config.rs` maps every code of
the spec table to the listed (name, category, sort-rank) triple, including
`i` to (irregular, checks, 7) and `x` to (lowest-relevance, relevance, 1), and
returns `none` for every other code; the older copy in `src/config.rs` omits
`i` and names the `x` tag `irrelevant` (see the counterexample). -/
theorem c4_rust_registry_table :
    (∀ c : Char, c ∉ rustTagKeys → tag_to_txt_ascii_common_rust c = none) ∧
    tag_to_txt_ascii_common_rust 'T' = some ("taiwan-only", "country", 10) ∧
    tag_to_txt_ascii_common_rust 't' = some ("taiwan-chiefly", "country", 10) ∧
    tag_to_txt_ascii_common_rust 'C' = some ("china-only", "country", 10) ∧
    tag_to_txt_ascii_common_rust 'c' = some ("china-chiefly", "country", 10) ∧
    tag_to_txt_ascii_common_rust '&' = some ("bound-form", "bound-form", 8) ∧
    tag_to_txt_ascii_common_rust 'i' = some ("irregular", "checks", 7) ∧
    tag_to_txt_ascii_common_rust 'A' = some ("ai-only", "ai", 6) ∧
    tag_to_txt_ascii_common_rust 'a' = some ("ai-human", "ai", 6) ∧
    tag_to_txt_ascii_common_rust 'w' = some ("wiktionary", "source", 3) ∧
    tag_to_txt_ascii_common_rust 'm' = some ("mdbg", "source", 2) ∧
    tag_to_txt_ascii_common_rust '+' = some ("high-relevance", "relevance", 1) ∧
    tag_to_txt_ascii_common_rust '-' = some ("low-relevance", "relevance", 1) ∧
    tag_to_txt_ascii_common_rust 'x' = some ("lowest-relevance", "relevance", 1) ∧
    tag_to_txt_ascii_common_rust 'X' = some ("deleted", "relevance", 1) := by
  refine ⟨?_, rfl, rfl, rfl, rfl, rfl, rfl, rfl, rfl, rfl, rfl, rfl, rfl, rfl, rfl⟩
  intro c hc
  simp only [rustTagKeys, List.mem_cons, List.not_mem_nil, or_false, not_or] at hc
  obtain ⟨h1, h2, h3, h4, h5, h6, h7, h8, h9, h10, h11, h12, h13, h14⟩ := hc
  simp [tag_to_txt_ascii_common_rust, h1, h2, h3, h4, h5, h6, h7, h8, h9, h10,
    h11, h12, h13, h14]

/-- Witness for C4: the unlisted code `q` is rejected by the registry. -/
theorem c4_rust_registry_table_witness :
    'q' ∉ rustTagKeys ∧ tag_to_txt_ascii_common_rust 'q' = none :=
  ⟨by decide, c4_rust_registry_table.1 'q' (by decide)⟩

/-- C4 counterexample: the registry copy in `src/config.rs` that the ingest
pipeline links against rejects the code `i` entirely and maps `x` to the name
`irrelevant`, contradicting the claimed table. -/
theorem c4_counterexample :
    tag_to_txt_ascii_common 'i' = none ∧
      tag_to_txt_ascii_common 'x' = some ("irrelevant", "relevance", 1) := by
  decide

theorem add_missing_one_spec {db db1 : Db} {r : ReferenceRow}
    (h : add_missing_one db r = .ok db1) :
    db1.refs = db.refs ++ [⟨db.refs.length + 1, db.shared.length + 1,
      r.ref_type_id, r.word_id_dst, r.definition_id_dst, r.word_id_src,
      r.definition_id_src⟩] ∧ db1.refTypes = db.refTypes := by
  unfold add_missing_one at h
  cases hir : insertAtRank db r with
  | none =>
    rw [hir] at h
    exact absurd h (by simp)
  | some rank =>
    rw [hir] at h
    dsimp only at h
    injection h with h
    subst h
    exact ⟨rfl, rfl⟩

theorem add_missing_go_spec {l : List ReferenceRow} :
    ∀ {db db' : Db}, add_missing_go l db = .ok db' →
      (∀ r ∈ l, r ∈ db.refs) →
      ((∀ x ∈ db.refs, x ∈ db'.refs) ∧
       (∀ r ∈ l, ∃ m ∈ db'.refs, mirrors r m = true) ∧
       (∀ x ∈ db'.refs, x ∈ db.refs ∨ ∃ o ∈ db'.refs, mirrors x o = true) ∧
       db'.refTypes = db.refTypes) := by
  induction l with
  | nil =>
    intro db db' h _
    simp only [add_missing_go] at h
    injection h with h
    subst h
    exact ⟨fun x hx => hx, fun r hr => absurd hr (List.not_mem_nil r),
      fun x hx => Or.inl hx, rfl⟩
  | cons r rest ih =>
    intro db db' h hl
    simp only [add_missing_go] at h
    cases hone : add_missing_one db r with
    | error e =>
      rw [hone] at h
      exact absurd h (by simp)
    | ok db1 =>
      rw [hone] at h
      obtain ⟨hrefs1, hrt1⟩ := add_missing_one_spec hone
      have hr0 : r ∈ db.refs := hl r (List.mem_cons_self r rest)
      have hl1 : ∀ x ∈ rest, x ∈ db1.refs := by
        intro x hx
        rw [hrefs1]
        exact List.mem_append_left _ (hl x (List.mem_cons_of_mem r hx))
      obtain ⟨ihA, ihB, ihC, ihD⟩ := ih h hl1
      have hsub : ∀ x ∈ db.refs, x ∈ db'.refs := by
        intro x hx
        apply ihA
        rw [hrefs1]
        exact List.mem_append_left _ hx
      have hnewMem : (⟨db.refs.length + 1, db.shared.length + 1, r.ref_type_id,
          r.word_id_dst, r.definition_id_dst, r.word_id_src,
          r.definition_id_src⟩ : ReferenceRow) ∈ db'.refs := by
        apply ihA
        rw [hrefs1]
        exact List.mem_append_right _ (List.mem_singleton.mpr rfl)
      refine ⟨hsub, ?_, ?_, by rw [ihD, hrt1]⟩
      · intro x hx
        rcases List.mem_cons.mp hx with hx | hx
        · subst hx
          exact ⟨_, hnewMem, mirrors_mk _ _⟩
        · exact ihB x hx
      · intro x hx
        rcases ihC x hx with hx1 | hx1
        · rw [hrefs1] at hx1
          rcases List.mem_append.mp hx1 with hx2 | hx2
          · exact Or.inl hx2
          · rw [List.mem_singleton] at hx2
            subst hx2
            exact Or.inr ⟨r, hsub r hr0, mirrors_comm (mirrors_mk _ _)⟩
        · exact Or.inr hx1

theorem mirror_closure {db db1 : Db}
    (h : add_missing_symmetric_references db = .ok db1) :
    ∀ r ∈ db1.refs, isSymRef db1 r = true →
      ∃ m ∈ db1.refs, mirrors r m = true := by
  unfold add_missing_symmetric_references at h
  have hl : ∀ x ∈ missingSymmetric db, x ∈ db.refs := by
    intro x hx
    exact (List.mem_filter.mp hx).1
  obtain ⟨hA, hB, hC, hD⟩ := add_missing_go_spec h hl
  intro r hr hsym
  rcases hC r hr with hr0 | hr0
  · by_cases hany : db.refs.any (fun m => mirrors r m) = true
    · rw [List.any_eq_true] at hany
      obtain ⟨m, hm, hmm⟩ := hany
      exact ⟨m, hA m hm, hmm⟩
    · have hsym0 : isSymRef db r = true := by
        rw [← isSymRef_congr hD]
        exact hsym
      have hanyf : (db.refs.any (fun m => mirrors r m)) = false := by
        cases hv : db.refs.any (fun m => mirrors r m)
        · rfl
        · exact absurd hv hany
      have hmiss : r ∈ missingSymmetric db := by
        rw [missingSymmetric, List.mem_filter]
        exact ⟨hr0, by simp [hsym0, hanyf]⟩
      exact hB r hmiss
  · exact hr0

theorem copyTagsLowToHigh_fields (db : Db) :
    (copyTagsLowToHigh db).refs = db.refs ∧
    (copyTagsLowToHigh db).refTypes = db.refTypes ∧
    (copyTagsLowToHigh db).shared = db.shared := by
  unfold copyTagsLowToHigh
  exact insertSharedTags_fields db _

theorem copyTagsHighToLow_fields (db : Db) :
    (copyTagsHighToLow db).refs = db.refs ∧
    (copyTagsHighToLow db).refTypes = db.refTypes ∧
    (copyTagsHighToLow db).shared = db.shared := by
  unfold copyTagsHighToLow
  exact insertSharedTags_fields db _

theorem copyNotesLowToHigh_fields (db : Db) :
    (copyNotesLowToHigh db).refs = db.refs ∧
    (copyNotesLowToHigh db).refTypes = db.refTypes ∧
    (copyNotesLowToHigh db).sharedTags = db.sharedTags :=
  ⟨rfl, rfl, rfl⟩

theorem copyNotesHighToLow_fields (db : Db) :
    (copyNotesHighToLow db).refs = db.refs ∧
    (copyNotesHighToLow db).refTypes = db.refTypes ∧
    (copyNotesHighToLow db).sharedTags = db.sharedTags :=
  ⟨rfl, rfl, rfl⟩

theorem notesTags_fields (db : Db) :
    (add_missing_notes_and_tags_for_symmetric_references db).refs = db.refs ∧
    (add_missing_notes_and_tags_for_symmetric_references db).refTypes
      = db.refTypes := by
  unfold add_missing_notes_and_tags_for_symmetric_references
  obtain ⟨h1, h2, _⟩ := copyTagsLowToHigh_fields db
  obtain ⟨h3, h4, _⟩ := copyTagsHighToLow_fields (copyTagsLowToHigh db)
  constructor
  · show (copyTagsHighToLow (copyTagsLowToHigh db)).refs = db.refs
    rw [h3, h1]
  · show (copyTagsHighToLow (copyTagsLowToHigh db)).refTypes = db.refTypes
    rw [h4, h2]

theorem hasTag_congr {d1 d2 : Db} (h : d1.sharedTags = d2.sharedTags) :
    hasTag d1 = hasTag d2 := by
  funext s t
  unfold hasTag
  rw [h]

theorem noteOf_congr {d1 d2 : Db} (h : d1.shared = d2.shared) :
    noteOf d1 = noteOf d2 := by
  funext s
  unfold noteOf
  rw [h]

theorem noteUpdLowToHigh_id (db : Db) (s : SharedRow) :
    (noteUpdLowToHigh db s).id = s.id := by
  unfold noteUpdLowToHigh
  repeat' split
  all_goals rfl

theorem noteUpdHighToLow_id (db : Db) (s : SharedRow) :
    (noteUpdHighToLow db s).id = s.id := by
  unfold noteUpdHighToLow
  repeat' split
  all_goals rfl

theorem noteOf_copyNotesLowToHigh (db : Db) (sid : Nat) :
    noteOf (copyNotesLowToHigh db) sid =
      (db.shared.find? (fun s => s.id = sid)).bind
        (fun s => (noteUpdLowToHigh db s).note_id) := by
  unfold copyNotesLowToHigh noteOf
  dsimp only
  rw [find?_map_id_note (noteUpdLowToHigh_id db)]
  cases db.shared.find? (fun s => s.id = sid) with
  | none => rfl
  | some s => rfl

theorem noteOf_copyNotesHighToLow (db : Db) (sid : Nat) :
    noteOf (copyNotesHighToLow db) sid =
      (db.shared.find? (fun s => s.id = sid)).bind
        (fun s => (noteUpdHighToLow db s).note_id) := by
  unfold copyNotesHighToLow noteOf
  dsimp only
  rw [find?_map_id_note (noteUpdHighToLow_id db)]
  cases db.shared.find? (fun s => s.id = sid) with
  | none => rfl
  | some s => rfl

theorem cleanPair_mem {db0 : Db} {a b : ReferenceRow} (H : CleanPair db0 a b) :
    (a, b) ∈ symPairs db0 :=
  symPairs_mem_intro H.ha H.hb H.hsym H.hm H.hlt

theorem cleanPair_of_snd {db0 : Db} {a b : ReferenceRow} (H : CleanPair db0 a b) :
    ∀ pr ∈ symPairs db0, pr.2.shared_id = b.shared_id → pr = (a, b) := by
  intro pr hpr h2
  obtain ⟨x, y⟩ := pr
  obtain ⟨hp1, hp2, _, hpm, _⟩ := symPairs_mem hpr
  dsimp only at hp1 hp2 hpm h2 ⊢
  have hb2 : y = b := H.sharedInj y hp2 b H.hb h2
  subst hb2
  have ha1 : x = a := H.uniqB x hp1 (mirrors_comm hpm)
  rw [ha1]

theorem cleanPair_of_fst {db0 : Db} {a b : ReferenceRow} (H : CleanPair db0 a b) :
    ∀ pr ∈ symPairs db0, pr.1.shared_id = a.shared_id → pr = (a, b) := by
  intro pr hpr h1
  obtain ⟨x, y⟩ := pr
  obtain ⟨hp1, hp2, _, hpm, _⟩ := symPairs_mem hpr
  dsimp only at hp1 hp2 hpm h1 ⊢
  have ha1 : x = a := H.sharedInj x hp1 a H.ha h1
  subst ha1
  have hb2 : y = b := H.uniqA y hp2 hpm
  rw [hb2]

theorem cleanPair_ne_fst_b {db0 : Db} {a b : ReferenceRow}
    (H : CleanPair db0 a b) :
    ∀ pr ∈ symPairs db0, ¬(pr.1.shared_id = b.shared_id) := by
  intro pr hpr h1
  obtain ⟨x, y⟩ := pr
  obtain ⟨hp1, hp2, _, hpm, hplt⟩ := symPairs_mem hpr
  dsimp only at hp1 hp2 hpm hplt h1
  have hb1 : x = b := H.sharedInj x hp1 b H.hb h1
  subst hb1
  have hy : y = a := H.uniqB y hp2 hpm
  subst hy
  exact Nat.lt_asymm H.hlt hplt

theorem cleanPair_ne_snd_a {db0 : Db} {a b : ReferenceRow}
    (H : CleanPair db0 a b) :
    ∀ pr ∈ symPairs db0, ¬(pr.2.shared_id = a.shared_id) := by
  intro pr hpr h2
  obtain ⟨x, y⟩ := pr
  obtain ⟨hp1, hp2, _, hpm, hplt⟩ := symPairs_mem hpr
  dsimp only at hp1 hp2 hpm hplt h2
  have ha2 : y = a := H.sharedInj y hp2 a H.ha h2
  subst ha2
  have hx : x = b := H.uniqA x hp1 (mirrors_comm hpm)
  subst hx
  exact Nat.lt_asymm H.hlt hplt

theorem mem_tagCopyRows {db : Db} {ps : List (ReferenceRow × ReferenceRow)}
    {src dst : ReferenceRow × ReferenceRow → Nat} {sid t : Nat} :
    ((⟨sid, t⟩ : SharedTagRow) ∈ ps.flatMap (fun pr =>
      (tagIdsOf db (src pr)).filterMap (fun u =>
        if hasTag db (dst pr) u then none else some ⟨dst pr, u⟩))) ↔
    ∃ pr ∈ ps, dst pr = sid ∧ hasTag db (src pr) t = true ∧
      hasTag db (dst pr) t = false := by
  rw [List.mem_flatMap]
  constructor
  · rintro ⟨pr, hpr, hmem⟩
    rw [List.mem_filterMap] at hmem
    obtain ⟨u, hu, heq⟩ := hmem
    by_cases hc : hasTag db (dst pr) u = true
    · rw [if_pos hc] at heq
      exact absurd heq (by simp)
    · rw [if_neg hc] at heq
      have hcf : hasTag db (dst pr) u = false := by
        cases hv : hasTag db (dst pr) u
        · rfl
        · exact absurd hv hc
      injection heq with heq
      injection heq with hq1 hq2
      subst hq2
      exact ⟨pr, hpr, hq1, (tagIdsOf_mem db (src pr) u).mp hu, hcf⟩
  · rintro ⟨pr, hpr, hdst, hsrc, hdstf⟩
    refine ⟨pr, hpr, List.mem_filterMap.mpr
      ⟨t, (tagIdsOf_mem db (src pr) t).mpr hsrc, ?_⟩⟩
    rw [if_neg (by simp [hdstf]), hdst]

theorem cleanPair_tags_sync {db0 : Db} {a b : ReferenceRow}
    (H : CleanPair db0 a b) (u : Nat) :
    hasTag (add_missing_notes_and_tags_for_symmetric_references db0)
        a.shared_id u =
      hasTag (add_missing_notes_and_tags_for_symmetric_references db0)
        b.shared_id u := by
  have hstep : hasTag (add_missing_notes_and_tags_for_symmetric_references db0)
      = hasTag (copyTagsHighToLow (copyTagsLowToHigh db0)) := hasTag_congr rfl
  rw [hstep]
  have hU1 := cleanPair_of_snd H
  have hU2 := cleanPair_of_fst H
  have hU3 := cleanPair_ne_fst_b H
  have hU4 := cleanPair_ne_snd_a H
  have hab := cleanPair_mem H
  have memL := fun (sid : Nat) =>
    @mem_tagCopyRows db0 (symPairs db0) (fun pr => pr.1.shared_id)
      (fun pr => pr.2.shared_id) sid u
  have memH := fun (sid : Nat) =>
    @mem_tagCopyRows (copyTagsLowToHigh db0) (symPairs (copyTagsLowToHigh db0))
      (fun pr => pr.2.shared_id) (fun pr => pr.1.shared_id) sid u
  have hps : symPairs (copyTagsLowToHigh db0) = symPairs db0 := by
    obtain ⟨hr, hrt, _⟩ := copyTagsLowToHigh_fields db0
    exact symPairs_congr hr hrt
  have I1 : hasTag (copyTagsLowToHigh db0) a.shared_id u = true ↔
      hasTag db0 a.shared_id u = true := by
    constructor
    · intro hw
      rcases (hasTag_insertSharedTags db0 _ a.shared_id u).mp hw with h | h
      · exact h
      · obtain ⟨pr, hpr, hd, _, _⟩ := (memL a.shared_id).mp h
        exact absurd hd (hU4 pr hpr)
    · intro hw
      exact (hasTag_insertSharedTags db0 _ a.shared_id u).mpr (Or.inl hw)
  have I2 : hasTag (copyTagsLowToHigh db0) b.shared_id u = true ↔
      (hasTag db0 a.shared_id u = true ∨ hasTag db0 b.shared_id u = true) := by
    constructor
    · intro hw
      rcases (hasTag_insertSharedTags db0 _ b.shared_id u).mp hw with h | h
      · exact Or.inr h
      · obtain ⟨pr, hpr, hd, hsrc, _⟩ := (memL b.shared_id).mp h
        have hpe : pr = (a, b) := hU1 pr hpr hd
        rw [hpe] at hsrc
        exact Or.inl hsrc
    · rintro (h | h)
      · by_cases hb0 : hasTag db0 b.shared_id u = true
        · exact (hasTag_insertSharedTags db0 _ b.shared_id u).mpr (Or.inl hb0)
        · have hbf : hasTag db0 b.shared_id u = false := by
            cases hv : hasTag db0 b.shared_id u
            · rfl
            · exact absurd hv hb0
          exact (hasTag_insertSharedTags db0 _ b.shared_id u).mpr
            (Or.inr ((memL b.shared_id).mpr ⟨(a, b), hab, rfl, h, hbf⟩))
      · exact (hasTag_insertSharedTags db0 _ b.shared_id u).mpr (Or.inl h)
  have J1 : hasTag (copyTagsHighToLow (copyTagsLowToHigh db0))
        a.shared_id u = true ↔
      (hasTag db0 a.shared_id u = true ∨ hasTag db0 b.shared_id u = true) := by
    constructor
    · intro hw
      rcases (hasTag_insertSharedTags (copyTagsLowToHigh db0) _
          a.shared_id u).mp hw with h | h
      · exact Or.inl (I1.mp h)
      · obtain ⟨pr, hpr, hd, hsrc, _⟩ := (memH a.shared_id).mp h
        rw [hps] at hpr
        have hpe : pr = (a, b) := hU2 pr hpr hd
        rw [hpe] at hsrc
        exact I2.mp hsrc
    · intro h0
      by_cases h1a : hasTag (copyTagsLowToHigh db0) a.shared_id u = true
      · exact (hasTag_insertSharedTags (copyTagsLowToHigh db0) _
          a.shared_id u).mpr (Or.inl h1a)
      · have h1af : hasTag (copyTagsLowToHigh db0) a.shared_id u = false := by
          cases hv : hasTag (copyTagsLowToHigh db0) a.shared_id u
          · rfl
          · exact absurd hv h1a
        refine (hasTag_insertSharedTags (copyTagsLowToHigh db0) _
          a.shared_id u).mpr (Or.inr ?_)
        refine (memH a.shared_id).mpr ⟨(a, b), ?_, rfl, I2.mpr h0, h1af⟩
        rw [hps]
        exact hab
  have J2 : hasTag (copyTagsHighToLow (copyTagsLowToHigh db0))
        b.shared_id u = true ↔
      (hasTag db0 a.shared_id u = true ∨ hasTag db0 b.shared_id u = true) := by
    constructor
    · intro hw
      rcases (hasTag_insertSharedTags (copyTagsLowToHigh db0) _
          b.shared_id u).mp hw with h | h
      · exact I2.mp h
      · obtain ⟨pr, hpr, hd, _, _⟩ := (memH b.shared_id).mp h
        rw [hps] at hpr
        exact absurd hd (hU3 pr hpr)
    · intro h0
      exact (hasTag_insertSharedTags (copyTagsLowToHigh db0) _
        b.shared_id u).mpr (Or.inl (I2.mpr h0))
  cases hva : hasTag (copyTagsHighToLow (copyTagsLowToHigh db0)) a.shared_id u
  · cases hvb : hasTag (copyTagsHighToLow (copyTagsLowToHigh db0)) b.shared_id u
    · rfl
    · exact absurd (J1.mpr (J2.mp hvb)) (by simp [hva])
  · exact (J2.mpr (J1.mp hva)).symm

theorem find?_row_of_exists {l : List SharedRow} {sid : Nat}
    (h : ∃ s ∈ l, s.id = sid) :
    ∃ s, l.find? (fun r => r.id = sid) = some s ∧ s.id = sid ∧ s ∈ l := by
  have hs : (l.find? (fun r => r.id = sid)).isSome := by
    rw [List.find?_isSome]
    obtain ⟨s, hs1, hs2⟩ := h
    exact ⟨s, hs1, by simp [hs2]⟩
  obtain ⟨s, hfs⟩ := Option.isSome_iff_exists.mp hs
  refine ⟨s, hfs, ?_, List.mem_of_find?_eq_some hfs⟩
  have hp := List.find?_some hfs
  exact of_decide_eq_true hp

theorem noteOf_L2H_eval {db : Db} {sid : Nat} {s : SharedRow}
    (hf : db.shared.find? (fun r => r.id = sid) = some s) :
    noteOf (copyNotesLowToHigh db) sid = (noteUpdLowToHigh db s).note_id := by
  rw [noteOf_copyNotesLowToHigh, hf]
  rfl

theorem noteOf_H2L_eval {db : Db} {sid : Nat} {s : SharedRow}
    (hf : db.shared.find? (fun r => r.id = sid) = some s) :
    noteOf (copyNotesHighToLow db) sid = (noteUpdHighToLow db s).note_id := by
  rw [noteOf_copyNotesHighToLow, hf]
  rfl

theorem noteUpdL2H_not_fst {db0 db1 : Db} {a b : ReferenceRow}
    (H : CleanPair db0 a b) (hps : symPairs db1 = symPairs db0)
    {s : SharedRow} (hid : s.id = b.shared_id) :
    noteUpdLowToHigh db1 s = s := by
  unfold noteUpdLowToHigh
  by_cases hn : s.note_id = none
  · rw [if_pos hn]
    have hf : (symPairs db1).find? (fun pr => pr.1.shared_id = s.id &&
        (noteOf db1 pr.2.shared_id).isSome) = none := by
      rw [List.find?_eq_none]
      intro pr hpr hp
      simp only [Bool.and_eq_true, decide_eq_true_eq] at hp
      rw [hps] at hpr
      exact absurd (hp.1.trans hid) (cleanPair_ne_fst_b H pr hpr)
    rw [hf]
  · rw [if_neg hn]

theorem noteUpdL2H_fst {db0 db1 : Db} {a b : ReferenceRow}
    (H : CleanPair db0 a b) (hps : symPairs db1 = symPairs db0)
    (hno : noteOf db1 = noteOf db0) {s : SharedRow}
    (hid : s.id = a.shared_id) (hn : s.note_id = none) :
    (noteUpdLowToHigh db1 s).note_id = noteOf db0 b.shared_id := by
  unfold noteUpdLowToHigh
  rw [if_pos hn]
  cases hnb : noteOf db0 b.shared_id with
  | none =>
    have hf : (symPairs db1).find? (fun pr => pr.1.shared_id = s.id &&
        (noteOf db1 pr.2.shared_id).isSome) = none := by
      rw [List.find?_eq_none]
      intro pr hpr hp
      simp only [Bool.and_eq_true, decide_eq_true_eq] at hp
      rw [hps] at hpr
      have hpe : pr = (a, b) := cleanPair_of_fst H pr hpr (hp.1.trans hid)
      have h2 := hp.2
      rw [hpe] at h2
      dsimp only at h2
      rw [hno, hnb] at h2
      exact absurd h2 (by simp)
    rw [hf]
    exact hn
  | some w =>
    have hsome : ((symPairs db1).find? (fun pr => pr.1.shared_id = s.id &&
        (noteOf db1 pr.2.shared_id).isSome)).isSome := by
      rw [List.find?_isSome]
      refine ⟨(a, b), by rw [hps]; exact cleanPair_mem H, ?_⟩
      dsimp only
      rw [hno]
      simp [hid, hnb]
    obtain ⟨pr0, hf0⟩ := Option.isSome_iff_exists.mp hsome
    have hmem : pr0 ∈ symPairs db0 := by
      rw [← hps]
      exact List.mem_of_find?_eq_some hf0
    have hp0 := List.find?_some hf0
    simp only [Bool.and_eq_true, decide_eq_true_eq] at hp0
    have hpe : pr0 = (a, b) := cleanPair_of_fst H pr0 hmem (hp0.1.trans hid)
    rw [hf0, hpe]
    dsimp only
    rw [hno, hnb]

theorem noteUpdH2L_not_snd {db0 db1 : Db} {a b : ReferenceRow}
    (H : CleanPair db0 a b) (hps : symPairs db1 = symPairs db0)
    {s : SharedRow} (hid : s.id = a.shared_id) :
    noteUpdHighToLow db1 s = s := by
  unfold noteUpdHighToLow
  by_cases hn : s.note_id = none
  · rw [if_pos hn]
    have hf : (symPairs db1).find? (fun pr => pr.2.shared_id = s.id &&
        (noteOf db1 pr.1.shared_id).isSome) = none := by
      rw [List.find?_eq_none]
      intro pr hpr hp
      simp only [Bool.and_eq_true, decide_eq_true_eq] at hp
      rw [hps] at hpr
      exact absurd (hp.1.trans hid) (cleanPair_ne_snd_a H pr hpr)
    rw [hf]
  · rw [if_neg hn]

theorem noteUpdH2L_snd {db0 db1 : Db} {a b : ReferenceRow}
    (H : CleanPair db0 a b) (hps : symPairs db1 = symPairs db0)
    {s : SharedRow} (hid : s.id = b.shared_id) (hn : s.note_id = none) :
    (noteUpdHighToLow db1 s).note_id = noteOf db1 a.shared_id := by
  unfold noteUpdHighToLow
  rw [if_pos hn]
  cases hna : noteOf db1 a.shared_id with
  | none =>
    have hf : (symPairs db1).find? (fun pr => pr.2.shared_id = s.id &&
        (noteOf db1 pr.1.shared_id).isSome) = none := by
      rw [List.find?_eq_none]
      intro pr hpr hp
      simp only [Bool.and_eq_true, decide_eq_true_eq] at hp
      rw [hps] at hpr
      have hpe : pr = (a, b) := cleanPair_of_snd H pr hpr (hp.1.trans hid)
      have h2 := hp.2
      rw [hpe] at h2
      dsimp only at h2
      rw [hna] at h2
      exact absurd h2 (by simp)
    rw [hf]
    exact hn
  | some v =>
    have hsome : ((symPairs db1).find? (fun pr => pr.2.shared_id = s.id &&
        (noteOf db1 pr.1.shared_id).isSome)).isSome := by
      rw [List.find?_isSome]
      refine ⟨(a, b), by rw [hps]; exact cleanPair_mem H, ?_⟩
      dsimp only
      simp [hid, hna]
    obtain ⟨pr0, hf0⟩ := Option.isSome_iff_exists.mp hsome
    have hmem : pr0 ∈ symPairs db0 := by
      rw [← hps]
      exact List.mem_of_find?_eq_some hf0
    have hp0 := List.find?_some hf0
    simp only [Bool.and_eq_true, decide_eq_true_eq] at hp0
    have hpe : pr0 = (a, b) := cleanPair_of_snd H pr0 hmem (hp0.1.trans hid)
    rw [hf0, hpe]
    dsimp only
    rw [hna]

theorem cleanPair_notes_sync {db0 : Db} {a b : ReferenceRow}
    (H : CleanPair db0 a b) :
    noteOf (add_missing_notes_and_tags_for_symmetric_references db0)
        a.shared_id =
      noteOf (add_missing_notes_and_tags_for_symmetric_references db0)
        b.shared_id := by
  obtain ⟨sA, hfA, hidA, _⟩ := find?_row_of_exists H.rowA
  obtain ⟨sB, hfB, hidB, _⟩ := find?_row_of_exists H.rowB
  have hnaA : noteOf db0 a.shared_id = sA.note_id := by
    unfold noteOf
    rw [hfA]
    rfl
  have hnbB : noteOf db0 b.shared_id = sB.note_id := by
    unfold noteOf
    rw [hfB]
    rfl
  have hsh2 : (copyTagsHighToLow (copyTagsLowToHigh db0)).shared
      = db0.shared := by
    obtain ⟨_, _, h1⟩ := copyTagsLowToHigh_fields db0
    obtain ⟨_, _, h2⟩ := copyTagsHighToLow_fields (copyTagsLowToHigh db0)
    rw [h2, h1]
  have hps2 : symPairs (copyTagsHighToLow (copyTagsLowToHigh db0))
      = symPairs db0 := by
    obtain ⟨h1, h2, _⟩ := copyTagsLowToHigh_fields db0
    obtain ⟨h3, h4, _⟩ := copyTagsHighToLow_fields (copyTagsLowToHigh db0)
    exact symPairs_congr (by rw [h3, h1]) (by rw [h4, h2])
  have hno2 : noteOf (copyTagsHighToLow (copyTagsLowToHigh db0))
      = noteOf db0 := noteOf_congr hsh2
  have hps3 : symPairs
      (copyNotesLowToHigh (copyTagsHighToLow (copyTagsLowToHigh db0)))
      = symPairs db0 := by
    refine Eq.trans ?_ hps2
    exact symPairs_congr rfl rfl
  have hfA2 : (copyTagsHighToLow (copyTagsLowToHigh db0)).shared.find?
      (fun r => r.id = a.shared_id) = some sA := by
    rw [hsh2]
    exact hfA
  have hfB2 : (copyTagsHighToLow (copyTagsLowToHigh db0)).shared.find?
      (fun r => r.id = b.shared_id) = some sB := by
    rw [hsh2]
    exact hfB
  have hupd3B : noteUpdLowToHigh (copyTagsHighToLow (copyTagsLowToHigh db0)) sB
      = sB := noteUpdL2H_not_fst H hps2 hidB
  have hfA3 : (copyNotesLowToHigh
        (copyTagsHighToLow (copyTagsLowToHigh db0))).shared.find?
      (fun r => r.id = a.shared_id)
      = some (noteUpdLowToHigh (copyTagsHighToLow (copyTagsLowToHigh db0))
          sA) := by
    show (((copyTagsHighToLow (copyTagsLowToHigh db0)).shared.map
      (noteUpdLowToHigh (copyTagsHighToLow (copyTagsLowToHigh db0)))).find?
      (fun r => r.id = a.shared_id)) = _
    rw [find?_map_id_note
      (noteUpdLowToHigh_id (copyTagsHighToLow (copyTagsLowToHigh db0))), hfA2]
    rfl
  have hfB3 : (copyNotesLowToHigh
        (copyTagsHighToLow (copyTagsLowToHigh db0))).shared.find?
      (fun r => r.id = b.shared_id) = some sB := by
    show (((copyTagsHighToLow (copyTagsLowToHigh db0)).shared.map
      (noteUpdLowToHigh (copyTagsHighToLow (copyTagsLowToHigh db0)))).find?
      (fun r => r.id = b.shared_id)) = _
    rw [find?_map_id_note
      (noteUpdLowToHigh_id (copyTagsHighToLow (copyTagsLowToHigh db0))), hfB2]
    show some (noteUpdLowToHigh (copyTagsHighToLow (copyTagsLowToHigh db0)) sB)
      = some sB
    rw [hupd3B]
  have h3A : noteOf (copyNotesLowToHigh
        (copyTagsHighToLow (copyTagsLowToHigh db0))) a.shared_id
      = (noteUpdLowToHigh (copyTagsHighToLow (copyTagsLowToHigh db0))
          sA).note_id := noteOf_L2H_eval hfA2
  unfold add_missing_notes_and_tags_for_symmetric_references
  have hidA3 : (noteUpdLowToHigh (copyTagsHighToLow (copyTagsLowToHigh db0))
      sA).id = a.shared_id := by
    rw [noteUpdLowToHigh_id]
    exact hidA
  have h4A : noteOf (copyNotesHighToLow (copyNotesLowToHigh
        (copyTagsHighToLow (copyTagsLowToHigh db0)))) a.shared_id
      = (noteUpdLowToHigh (copyTagsHighToLow (copyTagsLowToHigh db0))
          sA).note_id := by
    rw [noteOf_H2L_eval hfA3, noteUpdH2L_not_snd H hps3 hidA3]
  have h4B : noteOf (copyNotesHighToLow (copyNotesLowToHigh
        (copyTagsHighToLow (copyTagsLowToHigh db0)))) b.shared_id
      = (noteUpdHighToLow (copyNotesLowToHigh
          (copyTagsHighToLow (copyTagsLowToHigh db0))) sB).note_id :=
    noteOf_H2L_eval hfB3
  rw [h4A, h4B]
  cases hnb : sB.note_id with
  | some w =>
    have hsB4 : noteUpdHighToLow (copyNotesLowToHigh
        (copyTagsHighToLow (copyTagsLowToHigh db0))) sB = sB := by
      unfold noteUpdHighToLow
      rw [if_neg (by simp [hnb])]
    rw [hsB4, hnb]
    cases hna : sA.note_id with
    | some v =>
      have hsA3 : noteUpdLowToHigh
          (copyTagsHighToLow (copyTagsLowToHigh db0)) sA = sA := by
        unfold noteUpdLowToHigh
        rw [if_neg (by simp [hna])]
      rw [hsA3, hna]
      rcases H.noConflict with hc | hc | hc
      · rw [hnaA, hna] at hc
        exact absurd hc (by simp)
      · rw [hnbB, hnb] at hc
        exact absurd hc (by simp)
      · rw [hnaA, hnbB, hna, hnb] at hc
        exact hc
    | none =>
      rw [noteUpdL2H_fst H hps2 hno2 hidA hna, hnbB, hnb]
  | none =>
    rw [noteUpdH2L_snd H hps3 hidB hnb, h3A]

/-- C8 (amended): after the Semantic Repair pass (mirror synthesis followed
by tag/note synchronization), (i) every reference whose type is symmetric
has a mirror with source/destination words and definitions swapped (NULL
matching only NULL) whenever the synthesis pass completes, and (ii) a clean
mirror pair — each side the unique mirror of the other, Shareds unshared
between references, both Shared rows present, and the two sides not
carrying two different notes — ends up with identical tag sets and
identical `note_id`. Without the no-conflict hypothesis part (ii) is false:
the passes deliberately leave two differing notes in place (see the
counterexample). -/
theorem c8_symmetric_closure :
    (∀ db db1 : Db, add_missing_symmetric_references db = .ok db1 →
      ∀ r ∈ (add_missing_notes_and_tags_for_symmetric_references db1).refs,
        isSymRef (add_missing_notes_and_tags_for_symmetric_references db1) r
          = true →
        ∃ m ∈ (add_missing_notes_and_tags_for_symmetric_references db1).refs,
          mirrors r m = true) ∧
    (∀ (db0 : Db) (a b : ReferenceRow), CleanPair db0 a b →
      (∀ u, hasTag (add_missing_notes_and_tags_for_symmetric_references db0)
          a.shared_id u =
        hasTag (add_missing_notes_and_tags_for_symmetric_references db0)
          b.shared_id u) ∧
      noteOf (add_missing_notes_and_tags_for_symmetric_references db0)
          a.shared_id =
        noteOf (add_missing_notes_and_tags_for_symmetric_references db0)
          b.shared_id) := by
  constructor
  · intro db db1 h r hr hsym
    obtain ⟨hrefs, hrt⟩ := notesTags_fields db1
    rw [hrefs] at hr ⊢
    have hsym1 : isSymRef db1 r = true := by
      rw [← isSymRef_congr hrt]
      exact hsym
    exact mirror_closure h r hr hsym1
  · intro db0 a b H
    exact ⟨cleanPair_tags_sync H, cleanPair_notes_sync H⟩

theorem c8_symmetric_closure_witness :
    (add_missing_symmetric_references syncDb = .ok syncDb ∧
      ∃ m ∈ (add_missing_notes_and_tags_for_symmetric_references syncDb).refs,
        mirrors ⟨1, 3, 1, 1, none, 2, none⟩ m = true) ∧
    (CleanPair syncDb ⟨1, 3, 1, 1, none, 2, none⟩
        ⟨2, 4, 1, 2, none, 1, none⟩ ∧
      noteOf (add_missing_notes_and_tags_for_symmetric_references syncDb)
          (3 : Nat) =
        noteOf (add_missing_notes_and_tags_for_symmetric_references syncDb)
          (4 : Nat)) :=
  ⟨⟨by rfl, c8_symmetric_closure.1 syncDb syncDb (by rfl)
      ⟨1, 3, 1, 1, none, 2, none⟩ (by decide) (by decide)⟩,
   ⟨by constructor <;> decide,
    (c8_symmetric_closure.2 syncDb ⟨1, 3, 1, 1, none, 2, none⟩
      ⟨2, 4, 1, 2, none, 1, none⟩ (by constructor <;> decide)).2⟩⟩

/-- C8 counterexample: on a database whose symmetric mirror pair carries two
different notes, the repair pass completes but leaves the two `note_id`s
different, so the unconditional tag/note part of the claimed invariant is
false. -/
theorem c8_counterexample :
    repairDb conflictDb =
      .ok (add_missing_notes_and_tags_for_symmetric_references conflictDb) ∧
    (⟨1, 3, 1, 1, none, 2, none⟩ : ReferenceRow) ∈
      (add_missing_notes_and_tags_for_symmetric_references conflictDb).refs ∧
    (⟨2, 4, 1, 2, none, 1, none⟩ : ReferenceRow) ∈
      (add_missing_notes_and_tags_for_symmetric_references conflictDb).refs ∧
    isSymRef (add_missing_notes_and_tags_for_symmetric_references conflictDb)
      ⟨1, 3, 1, 1, none, 2, none⟩ = true ∧
    mirrors ⟨1, 3, 1, 1, none, 2, none⟩ ⟨2, 4, 1, 2, none, 1, none⟩ = true ∧
    noteOf (add_missing_notes_and_tags_for_symmetric_references conflictDb)
      (3 : Nat) = some 1 ∧
    noteOf (add_missing_notes_and_tags_for_symmetric_references conflictDb)
      (4 : Nat) = some 2 := by
  refine ⟨by rfl, ?_, ?_, ?_, ?_, ?_, ?_⟩ <;> decide

/-- C9 (code bug): `check_conflicting_notes_on_symmetric_references` hits an
unconditional `todo!()` between accumulating the conflict messages and its
`Ok(errors)` line, so on every database — including one that really has a
note conflict to report — the check panics instead of returning the
accumulated error list; the claimed non-blocking accumulation behaviour is
unreachable. -/
theorem c9_conflicting_notes_check_panics :
    (∀ db : Db, check_conflicting_notes_on_symmetric_references db
        = .error .todoUnimplemented) ∧
    conflictingNoteErrors conflictDb ≠ [] :=
  ⟨fun _ => rfl, by decide⟩

theorem noteIdx_eq_none {l : List NoteRow} {i : Nat}
    (h : i ∉ l.map (fun n => n.id)) : noteIdx l i = none := by
  induction l with
  | nil => rfl
  | cons n rest ih =>
    rw [List.map_cons, List.mem_cons] at h
    push_neg at h
    unfold noteIdx
    rw [if_neg h.1, ih h.2]
    rfl

theorem finalize_go_snd : ∀ (l : List NoteRow) (db : Db) (base : Nat),
    (finalize_go l db base).2 = base + l.length := by
  intro l
  induction l with
  | nil =>
    intro db base
    simp [finalize_go]
  | cons n rest ih =>
    intro db base
    simp only [finalize_go]
    rw [ih]
    simp only [List.length_cons]
    omega

theorem noteIdx_cons (n : NoteRow) (rest : List NoteRow) (i : Nat) :
    noteIdx (n :: rest) i = if i = n.id then some 0
      else (noteIdx rest i).map (fun j => j + 1) := rfl

theorem renumberNote_some {l : List NoteRow} {b : Nat} {x : NoteRow} {j : Nat}
    (h : noteIdx l x.id = some j) :
    renumberNote l b x = { x with ext_note_id := b + j + 1 } := by
  unfold renumberNote
  rw [h]

theorem renumberNote_none {l : List NoteRow} {b : Nat} {x : NoteRow}
    (h : noteIdx l x.id = none) : renumberNote l b x = x := by
  unfold renumberNote
  rw [h]

theorem finalize_go_notes : ∀ (l : List NoteRow) (db : Db) (base : Nat),
    (l.map (fun n => n.id)).Nodup →
    (finalize_go l db base).1.notes = db.notes.map (renumberNote l base) := by
  intro l
  induction l with
  | nil =>
    intro db base _
    have h1 : db.notes.map (renumberNote [] base) = db.notes.map id :=
      List.map_congr_left (fun m _ => rfl)
    show db.notes = db.notes.map (renumberNote [] base)
    rw [h1, List.map_id]
  | cons n rest ih =>
    intro db base hnd
    rw [List.map_cons, List.nodup_cons] at hnd
    obtain ⟨hnotin, hrest⟩ := hnd
    simp only [finalize_go]
    rw [ih _ (base + 1) hrest]
    show ((db.notes.map (fun m =>
        if m.id = n.id then { m with ext_note_id := base + 1 } else m)).map
      (renumberNote rest (base + 1))) = _
    rw [List.map_map]
    apply List.map_congr_left
    intro m _
    dsimp only [Function.comp]
    by_cases hm : m.id = n.id
    · rw [if_pos hm]
      have hnone : noteIdx rest m.id = none := by
        apply noteIdx_eq_none
        rw [hm]
        exact hnotin
      have h1 : renumberNote rest (base + 1)
          ({ m with ext_note_id := base + 1 } : NoteRow)
          = { m with ext_note_id := base + 1 } := renumberNote_none hnone
      have hx0 : noteIdx (n :: rest) m.id = some 0 := by
        rw [noteIdx_cons, if_pos hm]
      have h2 : renumberNote (n :: rest) base m
          = { m with ext_note_id := base + 0 + 1 } := renumberNote_some hx0
      rw [h1, h2]
    · rw [if_neg hm]
      cases hr : noteIdx rest m.id with
      | none =>
        have hx : noteIdx (n :: rest) m.id = none := by
          rw [noteIdx_cons, if_neg hm, hr]
          rfl
        rw [renumberNote_none hr, renumberNote_none hx]
      | some j =>
        have hx : noteIdx (n :: rest) m.id = some (j + 1) := by
          rw [noteIdx_cons, if_neg hm, hr]
          rfl
        rw [renumberNote_some hr, renumberNote_some hx]
        have harith : base + 1 + j + 1 = base + (j + 1) + 1 := by omega
        rw [harith]

theorem finalize_go_shared : ∀ (l : List NoteRow) (db : Db) (base : Nat)
    (hne : l ≠ []),
    (finalize_go l db base).1.shared
      = db.shared.map (headerUpd (l.getLast hne).id) := by
  intro l
  induction l with
  | nil =>
    intro db base hne
    exact absurd rfl hne
  | cons n rest ih =>
    intro db base hne
    by_cases hrest : rest = []
    · subst hrest
      simp only [finalize_go]
      apply List.map_congr_left
      intro s _
      rfl
    · simp only [finalize_go]
      rw [ih _ (base + 1) hrest]
      show ((db.shared.map (fun s =>
          if s.id = 1 then { s with note_id := some n.id } else s)).map
        (headerUpd (rest.getLast hrest).id)) = _
      rw [List.map_map, List.getLast_cons hrest]
      apply List.map_congr_left
      intro s _
      dsimp only [Function.comp]
      by_cases hs : s.id = 1
      · rw [if_pos hs]
        unfold headerUpd
        dsimp only
        rw [if_pos hs, if_pos hs]
      · rw [if_neg hs]

theorem write_header_note_link {db : Db} {s : SharedRow} {nid : Nat}
    {n : NoteRow} (hs : db.shared.find? (fun r => r.id = 1) = some s)
    (hc : s.comment_id = none) (hn : s.note_id = some nid)
    (hfn : db.notes.find? (fun m => m.id = nid) = some n) :
    write_shared_items db ⟨[], []⟩ 1 0 =
      .ok ⟨"N->".toList ++ natToChars n.ext_note_id ++ ['\n'], []⟩ := by
  unfold write_shared_items
  rw [hs]
  show write_shared_items_from_ids db ⟨[], []⟩ s.comment_id s.note_id 0 = _
  unfold write_shared_items_from_ids
  rw [hc, hn]
  dsimp only
  rw [hfn]
  rfl

/-- C10: when the note table is non-empty and at least one note has
`ext_note_id` below 100, `finalize_note_ids` renumbers exactly those notes
consecutively from `max(external counter, database maximum) + 1` in rowid
order, sets the `note_id` of the header Shared (surrogate id 1) to the
surrogate id of the last renumbered note while leaving every other Shared
row unchanged, and returns the last assigned id; the renderer then emits the
header note as an `N->` link line at indent 0. -/
theorem c10_finalize_header_note :
    (∀ (db : Db) (max_ext maxDb : Nat),
      (db.notes.map (fun n => n.ext_note_id)).max? = some maxDb →
      ((db.notes.filter (fun n => n.ext_note_id < 100)).map
        (fun n => n.id)).Nodup →
      ∀ hne : db.notes.filter (fun n => n.ext_note_id < 100) ≠ [],
      ∃ p, finalize_note_ids db max_ext = .ok p ∧
        p.1.notes = db.notes.map (renumberNote
          (db.notes.filter (fun n => n.ext_note_id < 100))
          (max max_ext maxDb)) ∧
        p.1.shared = db.shared.map (headerUpd
          ((db.notes.filter (fun n => n.ext_note_id < 100)).getLast hne).id) ∧
        p.2 = max max_ext maxDb +
          (db.notes.filter (fun n => n.ext_note_id < 100)).length) ∧
    (∀ (db : Db) (s : SharedRow) (nid : Nat) (n : NoteRow),
      db.shared.find? (fun r => r.id = 1) = some s →
      s.comment_id = none → s.note_id = some nid →
      db.notes.find? (fun m => m.id = nid) = some n →
      write_shared_items db ⟨[], []⟩ 1 0 =
        .ok ⟨"N->".toList ++ natToChars n.ext_note_id ++ ['\n'], []⟩) := by
  constructor
  · intro db max_ext maxDb hmax hnd hne
    refine ⟨finalize_go (db.notes.filter (fun n => n.ext_note_id < 100)) db
      (max max_ext maxDb), ?_, ?_, ?_, ?_⟩
    · unfold finalize_note_ids
      rw [hmax]
    · exact finalize_go_notes _ db _ hnd
    · exact finalize_go_shared _ db _ hne
    · exact finalize_go_snd _ db _
  · intro db s nid n h1 h2 h3 h4
    exact write_header_note_link h1 h2 h3 h4

theorem c10_finalize_header_note_witness :
    ((finDb.notes.map (fun n => n.ext_note_id)).max? = some 101 ∧
      ((finDb.notes.filter (fun n => n.ext_note_id < 100)).map
        (fun n => n.id)).Nodup ∧
      finDb.notes.filter (fun n => n.ext_note_id < 100) ≠ [] ∧
      (∃ p, finalize_note_ids finDb 3 = .ok p ∧
        p.1.notes = finDb.notes.map (renumberNote
          (finDb.notes.filter (fun n => n.ext_note_id < 100)) (max 3 101)) ∧
        p.1.shared = finDb.shared.map (headerUpd 1) ∧
        p.2 = 102)) ∧
    write_shared_items finDb ⟨[], []⟩ 1 0 =
      .ok ⟨"N->".toList ++ natToChars 5 ++ ['\n'], []⟩ := by
  constructor
  · refine ⟨by decide, by decide, by decide, ?_⟩
    obtain ⟨p, h1, h2, h3, h4⟩ := c10_finalize_header_note.1 finDb 3 101
      (by decide) (by decide) (by decide)
    refine ⟨p, h1, h2, ?_, ?_⟩
    · rw [h3]
      decide
    · rw [h4]
      decide
  · exact c10_finalize_header_note.2 finDb ⟨1, 1, none, some 1, none⟩ 1
      ⟨1, "header note".toList, 5⟩ (by decide) rfl rfl (by decide)

end Fmld


